import Mathlib

/-!
# Verification of the URDF-Studio scene-index core

A shallow embedding of the flat robot index builder (`buildRobotIndex` and its
helpers), the highlight manager, the static-matrix freeze optimisation and the
joint-drag math, together with proofs of the specified properties.

Scene graphs are modelled as rose trees of node records; node identity is the
path (list of child indices) from the robot root.  JavaScript `Map`/`Set`
objects are modelled as insertion-ordered association lists.  Numeric fields of
the builder are rationals; the drag math is modelled over the reals.
-/

namespace URDFStudio


/-! ## Association lists (JS `Map` semantics) and list sets (JS `Set`) -/

/-- JS `Map.get`: the value stored at `k`, if any (first matching entry). -/
def alGet {κ α : Type} [DecidableEq κ] (l : List (κ × α)) (k : κ) : Option α :=
  match l with
  | [] => none
  | e :: es => if e.1 = k then some e.2 else alGet es k


/-- JS `Map.set`: update the entry for `k` in place if present, else append. -/
def alSet {κ α : Type} [DecidableEq κ] (l : List (κ × α)) (k : κ) (v : α) :
    List (κ × α) :=
  if (alGet l k).isSome then
    l.map (fun e => if e.1 = k then (k, v) else e)
  else
    l ++ [(k, v)]


/-- JS `Set.add`: append if not already a member. -/
def setAdd {α : Type} [DecidableEq α] (s : List α) (a : α) : List α :=
  if a ∈ s then s else s ++ [a]


/-! ## Case-insensitive string matching

`COLLISION_PATH_REGEX = /(?:^|[_\x2f])(?:collision|collider|col)(?:[_\x2f]|$)/i`
is modelled as a scan over the character list: one of the three words must
occur delimited on the left by the string start or `_`/`/`, and on the right by
the string end or `_`/`/`. -/

/-- Is `c` one of the separator characters `_` or `/`? -/
def isSepCh (c : Char) : Bool := c = '_' || c = '/'


/-- Case-insensitive test that `w` starts the character list `s`. -/
def ciStarts : List Char → List Char → Bool
  | [], _ => true
  | _ :: _, [] => false
  | w :: ws, c :: cs => (w.toLower = c.toLower) && ciStarts ws cs


/-- Word `w` occurs at the front of `s` with a separator or end after it. -/
def wordWithBoundary (w s : List Char) : Bool :=
  ciStarts w s &&
    (match s.drop w.length with
     | [] => true
     | c :: _ => isSepCh c)


/-- Any of `collision`, `collider`, `col` occurs at the front of `s` with a
right boundary. -/
def anyCollisionWordHere (s : List Char) : Bool :=
  wordWithBoundary ['c','o','l','l','i','s','i','o','n'] s ||
  wordWithBoundary ['c','o','l','l','i','d','e','r'] s ||
  wordWithBoundary ['c','o','l'] s


/-- Scan of the character list; `atBoundary` records whether the previous
character (or the string start) is a left boundary. -/
def collisionScan : Bool → List Char → Bool
  | _, [] => false
  | atBoundary, c :: rest =>
      (atBoundary && anyCollisionWordHere (c :: rest)) ||
      collisionScan (isSepCh c) rest


/-- Model of `COLLISION_PATH_REGEX.test(name)`. -/
def collisionPathTest (s : String) : Bool :=
  collisionScan true s.toList


/-- Case-insensitive substring containment. -/
def ciContains (w : List Char) : List Char → Bool
  | [] => ciStarts w []
  | c :: rest => ciStarts w (c :: rest) || ciContains w rest


/-- Model of `/(?:imu|radar|lidar|camera|sensor)/i.test(linkName)`. -/
def sensorNameTest (s : String) : Bool :=
  ciContains ['i','m','u'] s.toList ||
  ciContains ['r','a','d','a','r'] s.toList ||
  ciContains ['l','i','d','a','r'] s.toList ||
  ciContains ['c','a','m','e','r','a'] s.toList ||
  ciContains ['s','e','n','s','o','r'] s.toList


/-! ## Data model

Node records mirror the fields of the three.js / urdf-loader objects that the
index builder reads and writes.  Class-level fields (set by the loader,
read-only for the builder) are separated from the mutable `userData` record.
Numeric attribute values are rationals; `Math.PI` is the exact value of the
IEEE-754 double `3.141592653589793`. -/

/-- The float64 value of JavaScript `Math.PI`, as an exact rational. -/
def jsPI : ℚ := 884279719003555 / 281474976710656


/-- A rational 3-vector (attribute values). -/
structure Vec3Q where
  x : ℚ
  y : ℚ
  z : ℚ
deriving DecidableEq, Repr


/-- Roll/pitch/yaw triple. -/
structure RpyQ where
  r : ℚ
  p : ℚ
  y : ℚ
deriving DecidableEq, Repr


/-- Inertia tensor components. -/
structure InertiaQ where
  ixx : ℚ
  ixy : ℚ
  ixz : ℚ
  iyy : ℚ
  iyz : ℚ
  izz : ℚ
deriving DecidableEq, Repr


/-- Raw `origin.xyz`-style object: each component possibly missing. -/
structure RawVecQ where
  x : Option ℚ
  y : Option ℚ
  z : Option ℚ
deriving DecidableEq, Repr


/-- Raw `origin.rpy`-style object, with both short and long key spellings. -/
structure RawRpy where
  r : Option ℚ
  roll : Option ℚ
  p : Option ℚ
  pitch : Option ℚ
  y : Option ℚ
  yaw : Option ℚ
deriving DecidableEq, Repr


/-- Raw `inertial.origin` object. -/
structure RawOrigin where
  xyz : Option RawVecQ
  rpy : Option RawRpy
deriving DecidableEq, Repr


/-- Raw `inertial.inertia` object. -/
structure RawInertia where
  ixx : Option ℚ
  ixy : Option ℚ
  ixz : Option ℚ
  iyy : Option ℚ
  iyz : Option ℚ
  izz : Option ℚ
deriving DecidableEq, Repr


/-- Raw inertial object attached to a link by the loader. -/
structure RawInertial where
  mass : Option ℚ
  origin : Option RawOrigin
  inertia : Option RawInertia
deriving DecidableEq, Repr


/-- `InertialData` as produced by `extractInertialData`. -/
structure InertialData where
  mass : ℚ
  centerOfMass : Vec3Q
  inertia : InertiaQ
  originXyz : Vec3Q
  originRpy : RpyQ
  isSensor : Bool
deriving DecidableEq, Repr


/-- The raw `joint.axis` value: a `THREE.Vector3`, a plain object with numeric
components, some other truthy value, or absent (`none`). -/
inductive AxisRaw where
  | vector3 (x y z : ℚ)
  | plainNum (x y z : ℚ)
  | other
deriving DecidableEq, Repr


/-- Raw `joint.limit` object. -/
structure RawLimit where
  lower : Option ℚ
  upper : Option ℚ
  effort : Option ℚ
  velocity : Option ℚ
deriving DecidableEq, Repr


/-- Extracted limit record (defaults applied). -/
structure LimitQ where
  lower : ℚ
  upper : ℚ
  effort : Option ℚ
  velocity : Option ℚ
deriving DecidableEq, Repr


/-- A node's path from the robot root: the list of child indices. -/
abbrev Path := List Nat


/-- `JointData` as produced by `extractJointData` (plus the affected-mesh list
populated during mesh indexing). -/
structure JointData where
  jointType : String
  axis : Vec3Q
  limit : LimitQ
  affectedMeshes : List Path
deriving DecidableEq, Repr


/-- The mutable `userData` record of a scene node. -/
structure UserData where
  isGizmo : Bool
  isURDFCollider : Bool
  isCollisionMesh : Option Bool
  isURDFLink : Bool
  linkName : Option String
  inertial : Option RawInertial
  inertialData : Option InertialData
  isSensor : Bool
  isURDFJoint : Bool
  jointType : Option String
  axis : Option Vec3Q
  limit : Option LimitQ
  parentLinkName : Option String
  isVisualMesh : Option Bool
  isInKinematicChain : Option Bool
  affectingJoints : Option (List String)
deriving DecidableEq, Repr


/-- A scene node.  `geometry` and `transform` are opaque identifiers standing
for the geometry object and the local transform, which the indexed operations
never interpret. -/
structure NodeData where
  name : String
  urdfName : Option String
  typeStr : String
  isMesh : Bool
  isURDFCollider : Bool
  isURDFVisual : Bool
  isURDFLink : Bool
  isURDFJoint : Bool
  jointTypeC : Option String
  axisC : Option AxisRaw
  limitC : Option RawLimit
  inertialC : Option RawInertial
  legacyInertial : Option RawInertial
  material : Nat
  visible : Bool
  renderOrder : Int
  matrixAutoUpdate : Bool
  geometry : Nat
  transform : Nat
  userData : UserData
deriving DecidableEq, Repr


/-- A `userData` record with every flag cleared and every entry absent. -/
def UserData.empty : UserData :=
  ⟨false, false, none, false, none, none, none, false, false, none, none, none,
    none, none, none, none⟩


/-! ## The scene graph as a rose tree -/

/-- The scene graph: a rose tree of node records, rooted at the robot. -/
inductive Tree where
  | node (data : NodeData) (children : List Tree)


/-- The node record stored at `p`, if the path is valid. -/
def getPath : Path → Tree → Option NodeData
  | [], .node d _ => some d
  | i :: p, .node _ cs => (cs[i]?).bind (getPath p)


/-- Update the element at index `i` (out-of-range indices leave the list
unchanged, as `Array.prototype` index assignment never occurs here). -/
def modIdx {α : Type} : Nat → (α → α) → List α → List α
  | _, _, [] => []
  | 0, f, a :: as => f a :: as
  | n + 1, f, a :: as => a :: modIdx n f as


/-- Update the node record at `p` in place (invalid paths change nothing). -/
def modPath : Path → (NodeData → NodeData) → Tree → Tree
  | [], f, .node d cs => .node (f d) cs
  | i :: p, f, .node d cs => .node d (modIdx i (modPath p f) cs)


mutual

/-- Preorder list of all node paths — the visit order of `Object3D.traverse`. -/
def Tree.paths : Tree → List Path
  | .node _ cs => [] :: pathsList cs 0

/-- Paths of the children starting at child index `i`. -/
def pathsList : List Tree → Nat → List Path
  | [], _ => []
  | c :: cs, i => (c.paths.map (fun q => i :: q)) ++ pathsList cs (i + 1)

end


/-! ## Ancestor chains

The `while (current && current !== robot)` walks visit the node (or its
parent) and every ancestor strictly below the robot root, nearest first. -/

/-- The chain starting at the node itself: all nonempty path prefixes, longest
first (the robot root `[]` is excluded, as the walks stop at `robot`). -/
def ancChainIncl (p : Path) : List Path :=
  (List.range p.length).reverse.map (fun k => p.take (k + 1))


/-- The chain starting at the node's parent. -/
def ancChainStrict (p : Path) : List Path :=
  ancChainIncl p.dropLast


/-! ## Extraction helpers (`extractInertialData`, `extractJointData`) -/

/-- `extractInertialData(link, linkName)`: first truthy of `link.inertial`,
`link.userData?.inertial`, `link._inertial`; missing attribute components
default to `0`; sensors are links with non-positive mass or a sensor-like
name. -/
def extractInertialData (d : NodeData) (linkName : String) :
    Option InertialData :=
  match d.inertialC <|> d.userData.inertial <|> d.legacyInertial with
  | none => none
  | some inr =>
      let mass := inr.mass.getD 0
      let isSensor := decide (mass ≤ 0) || sensorNameTest linkName
      let xyzv : Vec3Q :=
        match inr.origin with
        | none => ⟨0, 0, 0⟩
        | some o =>
            match o.xyz with
            | none => ⟨0, 0, 0⟩
            | some v => ⟨v.x.getD 0, v.y.getD 0, v.z.getD 0⟩
      let rpyv : RpyQ :=
        match inr.origin with
        | none => ⟨0, 0, 0⟩
        | some o =>
            match o.rpy with
            | none => ⟨0, 0, 0⟩
            | some v =>
                ⟨v.r.getD (v.roll.getD 0), v.p.getD (v.pitch.getD 0),
                  v.y.getD (v.yaw.getD 0)⟩
      let it : InertiaQ :=
        match inr.inertia with
        | none => ⟨0, 0, 0, 0, 0, 0⟩
        | some w =>
            ⟨w.ixx.getD 0, w.ixy.getD 0, w.ixz.getD 0, w.iyy.getD 0,
              w.iyz.getD 0, w.izz.getD 0⟩
      some ⟨mass, xyzv, it, xyzv, rpyv, isSensor⟩


/-- `extractJointData(joint)`: joint type defaulting to `fixed`, the axis
copied from a recognised vector shape and otherwise `(0,0,1)`, limits
defaulting to `[-Math.PI, Math.PI]`. -/
def extractJointData (d : NodeData) : JointData :=
  let jointType :=
    match d.jointTypeC with
    | none => "fixed"
    | some s => if s = "" then "fixed" else s
  let axis : Vec3Q :=
    match d.axisC with
    | none => ⟨0, 0, 1⟩
    | some (.vector3 x y z) => ⟨x, y, z⟩
    | some (.plainNum x y z) => ⟨x, y, z⟩
    | some .other => ⟨0, 0, 1⟩
  let limit : LimitQ :=
    match d.limitC with
    | none => ⟨-jsPI, jsPI, none, none⟩
    | some lr => ⟨lr.lower.getD (-jsPI), lr.upper.getD jsPI, lr.effort, lr.velocity⟩
  ⟨jointType, axis, limit, []⟩


/-! ## Mesh classification and ancestor resolution -/

/-- Phase-1 hit of `isCollisionMeshDeep`: explicit collider marker on a node
(class flag, class type string, or `userData` flags). -/
def collisionFlagHit (d : NodeData) : Bool :=
  d.isURDFCollider || d.typeStr = "URDFCollider" ||
    d.userData.isURDFCollider || d.userData.isCollisionMesh = some true


/-- `isCollisionMeshDeep(mesh, robot)`: explicit-marker walk first, then the
naming walk with `COLLISION_PATH_REGEX`; both walks go from the mesh itself up
to (but excluding) the robot root. -/
def isCollisionMeshDeep (t : Tree) (p : Path) : Bool :=
  ((ancChainIncl p).any fun q =>
    match getPath q t with
    | some d => collisionFlagHit d
    | none => false) ||
  ((ancChainIncl p).any fun q =>
    match getPath q t with
    | some d => d.name ≠ "" && collisionPathTest d.name
    | none => false)


/-- One step of `findNearestLink`: does this ancestor count as a link, and
under which name? -/
def linkHit (linkKeys : List String) (d : NodeData) : Option String :=
  if d.isURDFLink then
    some (if d.name ≠ "" then d.name else (d.urdfName.getD ""))
  else if d.name ≠ "" && linkKeys.contains d.name then
    some d.name
  else if d.userData.isURDFLink && (d.userData.linkName.getD "") ≠ "" then
    some (d.userData.linkName.getD "")
  else none


/-- `findNearestLink(obj, robot, robotLinks)`: first matching ancestor
starting from the parent, with its path and link name. -/
def findNearestLink (t : Tree) (p : Path) (linkKeys : List String) :
    Option (Path × String) :=
  (ancChainStrict p).findSome? fun q =>
    match getPath q t with
    | some d => (linkHit linkKeys d).map (fun n => (q, n))
    | none => none


/-- Is this node a registered non-fixed joint (`isURDFJoint` class flag with a
truthy joint type other than `fixed`)? -/
def movableJointAt (d : NodeData) : Bool :=
  d.isURDFJoint &&
    (match d.jointTypeC with
     | none => false
     | some jt => jt ≠ "" && jt ≠ "fixed")


/-- `findAffectingJoints(obj, robot)`: all movable joint ancestors, nearest
first. -/
def findAffectingJoints (t : Tree) (p : Path) : List Path :=
  (ancChainStrict p).filter fun q =>
    match getPath q t with
    | some d => movableJointAt d
    | none => false


/-! ## The flat index and the builder -/

/-- The flat `RobotIndex`.  Maps are insertion-ordered association lists;
sets are duplicate-free lists; meshes and scene objects are identified by
path. -/
structure RobotIndex where
  linksVisual : List (String × List Path)
  linksCollision : List (String × List Path)
  joints : List (String × Path)
  jointData : List (String × JointData)
  originalMaterials : List (Path × Nat)
  kinematicMeshes : List Path
  staticMeshes : List Path
  links : List (String × Path)
  linkInertials : List (String × InertialData)
  meshToLink : List (Path × String)
  meshIsCollider : List (Path × Bool)
  jointAffectedMeshes : List (String × List Path)
deriving DecidableEq, Repr


/-- `createEmptyIndex()`. -/
def createEmptyIndex : RobotIndex :=
  ⟨[], [], [], [], [], [], [], [], [], [], [], []⟩


/-- The robot handed to the builder: the scene tree plus the loader's `links`
and `joints` records (name-keyed, values are nodes of the tree). -/
structure Robot where
  tree : Tree
  links : List (String × Path)
  joints : List (String × Path)


/-- The builder state: the (mutated) scene tree and the index under
construction. -/
structure BuildState where
  tree : Tree
  index : RobotIndex


/-- The key set of the loader's `links` record. -/
def Robot.linkKeys (R : Robot) : List String := R.links.map Prod.fst


/-- Phase 1, one link: register it, inject `isURDFLink`/`linkName` into its
`userData`, and extract/store inertial data when present. -/
def phase1Step (s : BuildState) (e : String × Path) : BuildState :=
  let idx1 : RobotIndex := { s.index with links := alSet s.index.links e.1 e.2 }
  let t1 := modPath e.2
    (fun d => { d with userData :=
      { d.userData with isURDFLink := true, linkName := some e.1 } }) s.tree
  match getPath e.2 t1 with
  | none => ⟨t1, idx1⟩
  | some d =>
      match extractInertialData d e.1 with
      | none => ⟨t1, idx1⟩
      | some ind =>
          let idx2 : RobotIndex :=
            { idx1 with linkInertials := alSet idx1.linkInertials e.1 ind }
          let t2 := modPath e.2
            (fun d => { d with userData :=
              { d.userData with
                inertialData := some ind,
                isSensor := if ind.isSensor then true else d.userData.isSensor } })
            t1
          ⟨t2, idx2⟩


/-- Phase 2, one joint: register it, flatten its data, initialise its
affected-mesh set, and inject the flattened data into its `userData`. -/
def phase2Step (s : BuildState) (e : String × Path) : BuildState :=
  match getPath e.2 s.tree with
  | none => s
  | some d =>
      let jd := extractJointData d
      let idx1 : RobotIndex :=
        { s.index with
          joints := alSet s.index.joints e.1 e.2,
          jointData := alSet s.index.jointData e.1 jd,
          jointAffectedMeshes := alSet s.index.jointAffectedMeshes e.1 [] }
      let t1 := modPath e.2
        (fun d0 => { d0 with userData :=
          { d0.userData with
            isURDFJoint := true,
            jointType := some jd.jointType,
            axis := some jd.axis,
            limit := some jd.limit } }) s.tree
      ⟨t1, idx1⟩


/-- The values phase 3 computes for one mesh before updating anything. -/
structure MeshInfo where
  isCollider : Bool
  owner : String
  affecting : List Path
  affNames : List String
  isInK : Bool
deriving DecidableEq, Repr


/-- The `name` of the node at `q` (empty for an invalid path). -/
def nameAt (t : Tree) (q : Path) : String :=
  ((getPath q t).map NodeData.name).getD ""


/-- Classification, owner resolution and kinematic-ancestor collection for one
mesh, against the current tree state. -/
def meshInfo (linkKeys : List String) (t : Tree) (p : Path) : MeshInfo :=
  let affecting := findAffectingJoints t p
  ⟨isCollisionMeshDeep t p,
    ((findNearestLink t p linkKeys).map Prod.snd).getD "",
    affecting,
    affecting.map (nameAt t),
    !affecting.isEmpty⟩


/-- Snapshot the mesh's material into `originalMaterials` (first time only). -/
def updOrigMat (p : Path) (mat : Nat) (idx : RobotIndex) : RobotIndex :=
  if (alGet idx.originalMaterials p).isSome then idx
  else { idx with originalMaterials := idx.originalMaterials ++ [(p, mat)] }


/-- Reverse lookups: `meshToLink` (only for owned meshes) and
`meshIsCollider` (always). -/
def updReverse (p : Path) (info : MeshInfo) (idx : RobotIndex) : RobotIndex :=
  let idx1 :=
    if info.owner ≠ "" then
      { idx with meshToLink := alSet idx.meshToLink p info.owner }
    else idx
  { idx1 with meshIsCollider := alSet idx1.meshIsCollider p info.isCollider }


/-- Push the mesh into the owner's visual or collision bucket. -/
def updBuckets (p : Path) (info : MeshInfo) (idx : RobotIndex) : RobotIndex :=
  if info.owner = "" then idx
  else if info.isCollider then
    let b := (alGet idx.linksCollision info.owner).getD [] ++ [p]
    { idx with linksCollision := alSet idx.linksCollision info.owner b }
  else
    let b := (alGet idx.linksVisual info.owner).getD [] ++ [p]
    { idx with linksVisual := alSet idx.linksVisual info.owner b }


/-- Register the mesh with one affecting joint (by joint node name). -/
def regAffectingOne (p : Path) (idx : RobotIndex) (jn : String) : RobotIndex :=
  let idx1 :=
    if jn ≠ "" && (alGet idx.jointAffectedMeshes jn).isSome then
      let s := setAdd ((alGet idx.jointAffectedMeshes jn).getD []) p
      { idx with jointAffectedMeshes := alSet idx.jointAffectedMeshes jn s }
    else idx
  match alGet idx1.jointData jn with
  | some jd =>
      let jd2 : JointData := ⟨jd.jointType, jd.axis, jd.limit, jd.affectedMeshes ++ [p]⟩
      { idx1 with jointData := alSet idx1.jointData jn jd2 }
  | none => idx1


/-- Register the mesh with all of its affecting joints. -/
def updAffecting (p : Path) (info : MeshInfo) (idx : RobotIndex) : RobotIndex :=
  info.affNames.foldl (regAffectingOne p) idx


/-- Categorise for matrix optimisation: kinematic if any movable ancestor,
otherwise static only when the mesh is not a collider. -/
def updKinStatic (p : Path) (info : MeshInfo) (idx : RobotIndex) : RobotIndex :=
  if info.isInK then
    { idx with kinematicMeshes := setAdd idx.kinematicMeshes p }
  else if !info.isCollider then
    { idx with staticMeshes := setAdd idx.staticMeshes p }
  else idx


/-- The metadata injected into a mesh's `userData` by phase 3. -/
def meshUserDataWrite (info : MeshInfo) (ud : UserData) : UserData :=
  { ud with
    parentLinkName := some info.owner,
    isCollisionMesh := some info.isCollider,
    isVisualMesh := some (!info.isCollider),
    isInKinematicChain := some info.isInK,
    affectingJoints := some info.affNames }


/-- The composite index update of phase 3 for one mesh, in source order:
material snapshot, reverse lookups, buckets, affecting-joint registration,
kinematic/static categorisation. -/
def procIdx (p : Path) (info : MeshInfo) (dmat : Nat) (idx : RobotIndex) :
    RobotIndex :=
  updKinStatic p info
    (updAffecting p info
      (updBuckets p info
        (updReverse p info
          (updOrigMat p dmat idx))))


/-- Phase 3, one traversed node: skip gizmos and non-meshes; classify, resolve
the owner, collect affecting joints, inject mesh metadata, and update every
mesh-keyed map. -/
def phase3Step (linkKeys : List String) (s : BuildState) (p : Path) :
    BuildState :=
  match getPath p s.tree with
  | none => s
  | some d =>
      if d.userData.isGizmo then s
      else if !d.isMesh then s
      else
        let info := meshInfo linkKeys s.tree p
        let t := modPath p
          (fun d0 => { d0 with userData := meshUserDataWrite info d0.userData })
          s.tree
        ⟨t, procIdx p info d.material s.index⟩


/-- Phases 1 and 2 of `buildRobotIndex`. -/
def phase12 (R : Robot) : BuildState :=
  R.joints.foldl phase2Step (R.links.foldl phase1Step ⟨R.tree, createEmptyIndex⟩)


/-- `buildRobotIndex(robot, showCollision, showVisual)`: one traversal over
the scene tree after link/joint registration.  The visibility parameters are
accepted but (as in the source) not consulted by the build itself. -/
def buildRobotIndex (R : Robot) (showCollision showVisual : Bool) : BuildState :=
  let s2 := phase12 R
  (s2.tree.paths).foldl (phase3Step R.linkKeys) s2


/-! ## Matrix freeze and highlight management -/

/-- `freezeStaticMatrices(index)`: disable matrix auto-update on every static
mesh.  (`updateMatrix`/`updateMatrixWorld` recompute derived world matrices,
which are value-level and not part of the modelled node state.) -/
def freezeStaticMatrices (s : BuildState) : BuildState :=
  ⟨s.index.staticMeshes.foldl
      (fun t p => modPath p (fun d => { d with matrixAutoUpdate := false }) t)
      s.tree,
    s.index⟩


/-- `getLinkMeshes(index, linkName, subType)`. -/
def getLinkMeshes (idx : RobotIndex) (linkName : String) (subType : String) :
    List Path :=
  if subType = "collision" then (alGet idx.linksCollision linkName).getD []
  else (alGet idx.linksVisual linkName).getD []


/-- The highlight manager's state: the scene tree plus the transient
`highlightedMeshes` map (mesh → original material). -/
structure HLState where
  tree : Tree
  highlighted : List (Path × Nat)


/-- One bucket entry of `highlightLinkMeshes`: capture the original material
if not already captured, swap to the highlight material, force the mesh and
its parent visible. -/
def hlStep (highlightMat : Nat) (st : HLState) (p : Path) : HLState :=
  match getPath p st.tree with
  | none => st
  | some d =>
      if d.userData.isGizmo then st
      else
        let hm :=
          if (alGet st.highlighted p).isSome then st.highlighted
          else st.highlighted ++ [(p, d.material)]
        let t1 := modPath p
          (fun d0 => { d0 with material := highlightMat, visible := true })
          st.tree
        let t2 :=
          if p = [] then t1
          else modPath p.dropLast (fun d0 => { d0 with visible := true }) t1
        ⟨t2, hm⟩


/-- `highlightLinkMeshes(index, linkName, highlightMaterial, subType,
highlightedMeshes)`: for every non-gizmo mesh of the link's bucket, capture
the original material if not already captured, then swap to the highlight
material and force visibility. -/
def highlightLinkMeshes (idx : RobotIndex) (linkName : String)
    (highlightMat : Nat) (subType : String) (st : HLState) : HLState :=
  (getLinkMeshes idx linkName subType).foldl (hlStep highlightMat) st


/-- The `URDFCollider`-ancestor visibility walk of `revertHighlights`
(modelled up to the robot root). -/
def revertColliderParents (p : Path) (showCollision : Bool) (t : Tree) : Tree :=
  (ancChainStrict p).foldl
    (fun t q =>
      match getPath q t with
      | some a =>
          if a.isURDFCollider || a.typeStr = "URDFCollider" then
            modPath q (fun d => { d with visible := showCollision }) t
          else t
      | none => t)
    t


/-- The `URDFVisual`-ancestor visibility walk of `revertHighlights`. -/
def revertVisualParents (p : Path) (showVisual : Bool) (t : Tree) : Tree :=
  (ancChainStrict p).foldl
    (fun t q =>
      match getPath q t with
      | some a =>
          if a.isURDFVisual || a.typeStr = "URDFVisual" then
            modPath q (fun d => { d with visible := showVisual }) t
          else t
      | none => t)
    t


/-- Revert one highlighted mesh: restore its material, then recompute its
visibility and render order from the current global toggles.  (The collision
branch also mutates opacity fields of the material object itself, which does
not change which material the mesh references and is outside the modelled
state.) -/
def revertOne (showVisual showCollision : Bool) (t : Tree) (e : Path × Nat) :
    Tree :=
  let t1 := modPath e.1 (fun d => { d with material := e.2 }) t
  match getPath e.1 t1 with
  | none => t1
  | some d =>
      if d.userData.isCollisionMesh = some true then
        let ro : Int := if showCollision then 999 else 0
        let t2 := modPath e.1
          (fun d0 => { d0 with visible := showCollision, renderOrder := ro }) t1
        revertColliderParents e.1 showCollision t2
      else
        let t2 := modPath e.1
          (fun d0 => { d0 with visible := showVisual, renderOrder := 0 }) t1
        revertVisualParents e.1 showVisual t2


/-- `revertHighlights(highlightedMeshes, showVisual, showCollision)`: restore
every highlighted mesh in insertion order, then clear the map. -/
def revertHighlights (st : HLState) (showVisual showCollision : Bool) :
    HLState :=
  ⟨st.highlighted.foldl (revertOne showVisual showCollision) st.tree, []⟩


/-! ## View projections and preservation

`frameView` erases exactly the `userData` entries the build writes (link
registration, joint registration, inertial injection, mesh metadata); it is
preserved at every node by every build phase.  `p3view` erases only the five
mesh-metadata entries written by phase 3; it is preserved by phase 3, which
lets owner resolution and joint collection be read off the phase-1/2 tree. -/

/-- Erase every `userData` entry written by any build phase. -/
def NodeData.frameView (d : NodeData) : NodeData :=
  { d with userData :=
    { d.userData with
      isURDFLink := false, linkName := none, inertialData := none,
      isSensor := false, isURDFJoint := false, jointType := none,
      axis := none, limit := none, parentLinkName := none,
      isCollisionMesh := none, isVisualMesh := none,
      isInKinematicChain := none, affectingJoints := none } }


/-- Erase exactly the mesh-metadata `userData` entries written by phase 3. -/
def NodeData.p3view (d : NodeData) : NodeData :=
  { d with userData :=
    { d.userData with
      parentLinkName := none, isCollisionMesh := none, isVisualMesh := none,
      isInKinematicChain := none, affectingJoints := none } }


/-- The image of the whole tree under a node projection. -/
def treeView {τ : Type} (g : NodeData → τ) (t : Tree) : Path → Option τ :=
  fun q => (getPath q t).map g


/-- The fields `findAffectingJoints` reads. -/
def jointWalkFields (d : NodeData) : Bool × Option String :=
  (d.isURDFJoint, d.jointTypeC)


/-- The fields `findNearestLink` reads. -/
def linkWalkFields (d : NodeData) : String × Option String × Bool × Bool × Option String :=
  (d.name, d.urdfName, d.isURDFLink, d.userData.isURDFLink, d.userData.linkName)


/-- The mesh-keyed / mesh-categorising components of the index, which phases
1 and 2 never touch. -/
def meshIdxView (idx : RobotIndex) :
    List (String × List Path) × List (String × List Path) ×
      List (Path × Nat) × List Path × List Path ×
      List (Path × String) × List (Path × Bool) :=
  (idx.linksVisual, idx.linksCollision, idx.originalMaterials,
    idx.kinematicMeshes, idx.staticMeshes, idx.meshToLink, idx.meshIsCollider)


/-! ### Key sets, duplicate-freedom and bucket counting -/

/-- The keys of an association list are pairwise distinct (true of every list
built through `alSet`, mirroring a JS `Map`). -/
def keysNodup {κ α : Type} (l : List (κ × α)) : Prop := (l.map Prod.fst).Nodup


/-- Total number of occurrences of `p` across all buckets of one bucket map. -/
def sumCount (l : List (String × List Path)) (p : Path) : Nat :=
  (l.map (fun e => e.2.count p)).sum


/-- Total number of occurrences of `p` across all visual and collision
buckets: the "appears in exactly one bucket of exactly one link" measure. -/
def bucketsCount (idx : RobotIndex) (p : Path) : Nat :=
  sumCount idx.linksVisual p + sumCount idx.linksCollision p


/-! ### The phase-3 traversal invariant -/

/-- Boolean movability: the mesh has at least one non-fixed joint ancestor. -/
def movableB (t : Tree) (p : Path) : Bool := !(findAffectingJoints t p).isEmpty


/-- The owner link name resolved for a mesh (`""` when unowned). -/
def ownerName (t : Tree) (lk : List String) (p : Path) : String :=
  ((findNearestLink t p lk).map Prod.snd).getD ""


/-- The node at `p` is a mesh the traversal indexes (not a gizmo). -/
def isIndexedMesh (t : Tree) (p : Path) : Prop :=
  ∃ d, getPath p t = some d ∧ d.isMesh = true ∧ d.userData.isGizmo = false


/-- The affecting-joint names recorded for a mesh. -/
def affNamesAt (t : Tree) (p : Path) : List String :=
  (findAffectingJoints t p).map (nameAt t)


/-- Invariant maintained by the phase-3 fold over the traversal order, stated
against the phase-1/2 tree `t2` and the loader's link keys `lk`. -/
structure P3Inv (t2 : Tree) (lk : List String) (s : BuildState)
    (processed : List Path) : Prop where
  tv : treeView NodeData.p3view s.tree = treeView NodeData.p3view t2
  kin : ∀ p, p ∈ s.index.kinematicMeshes ↔
    (p ∈ processed ∧ isIndexedMesh t2 p ∧ movableB t2 p = true)
  stat : ∀ p, p ∈ s.index.staticMeshes ↔
    (p ∈ processed ∧ isIndexedMesh t2 p ∧ movableB t2 p = false ∧
      alGet s.index.meshIsCollider p = some false)
  coll : ∀ p, (alGet s.index.meshIsCollider p).isSome = true ↔
    (p ∈ processed ∧ isIndexedMesh t2 p)
  m2l : ∀ p n, alGet s.index.meshToLink p = some n ↔
    (p ∈ processed ∧ isIndexedMesh t2 p ∧ ownerName t2 lk p = n ∧ n ≠ "")
  bc0 : ∀ p, ¬(p ∈ processed ∧ isIndexedMesh t2 p ∧ ownerName t2 lk p ≠ "") →
    bucketsCount s.index p = 0
  bc1 : ∀ p, (p ∈ processed ∧ isIndexedMesh t2 p ∧ ownerName t2 lk p ≠ "") →
    bucketsCount s.index p = 1
  ndv : keysNodup s.index.linksVisual
  ndc : keysNodup s.index.linksCollision
  mw : ∀ p, p ∈ processed → isIndexedMesh t2 p →
    ∃ b, alGet s.index.meshIsCollider p = some b ∧
      (getPath p s.tree).map (fun d =>
          (d.userData.parentLinkName, d.userData.isCollisionMesh,
            d.userData.isVisualMesh, d.userData.isInKinematicChain,
            d.userData.affectingJoints)) =
        some (some (ownerName t2 lk p), some b, some (!b),
          some (movableB t2 p), some (affNamesAt t2 p))


/-! ## Concrete scene graphs for the test scenarios -/

/-- A plain group node (no flags, visible, identity-ish opaque transform). -/
def bNode (name : String) : NodeData :=
  ⟨name, none, "", false, false, false, false, false, none, none, none, none,
    none, 0, true, 0, true, 0, 0, UserData.empty⟩


/-- A mesh node. -/
def bMesh (name : String) (mat : Nat) : NodeData :=
  { bNode name with isMesh := true, material := mat }


/-- A link node as the urdf-loader produces it (class flag set). -/
def bLink (name : String) : NodeData :=
  { bNode name with isURDFLink := true }


/-- A joint node as the urdf-loader produces it. -/
def bJoint (name jt : String) : NodeData :=
  { bNode name with isURDFJoint := true, jointTypeC := some jt }


/-- Robot exercising the naming phase of the classifier: a link literally
named `collision_detector`, a grouping node named `leg_collision`, and a link
named `protocol_arm` whose name contains `col` only inside a larger word. -/
def robotC2 : Robot :=
  ⟨Tree.node (bNode "robot")
    [Tree.node (bLink "collision_detector") [Tree.node (bMesh "box" 1) []],
      Tree.node (bLink "leg_part")
        [Tree.node (bNode "leg_collision") [Tree.node (bMesh "m2" 2) []]],
      Tree.node (bLink "protocol_arm") [Tree.node (bMesh "m3" 3) []]],
    [("collision_detector", [0]), ("leg_part", [1]), ("protocol_arm", [2])],
    []⟩


/-- Squared Euclidean norm of a rational 3-vector. -/
def normSqQ (v : Vec3Q) : ℚ := v.x * v.x + v.y * v.y + v.z * v.z


/-- Robot with a revolute joint whose axis is the zero vector. -/
def robotC5 : Robot :=
  ⟨Tree.node (bNode "robot")
    [Tree.node
      ({ bJoint "j0" "revolute" with
        axisC := some (AxisRaw.vector3 0 0 0) }) []],
    [], [("j0", [0])]⟩


/-- Robot with an owned collision mesh (non-kinematic) and an orphan mesh
directly under the robot root. -/
def robotC1 : Robot :=
  ⟨Tree.node (bNode "robot")
    [Tree.node (bLink "base") [Tree.node (bMesh "box_collision" 1) []],
      Tree.node (bMesh "stray" 2) []],
    [("base", [0])], []⟩


/-- Robot with a mesh under two nested revolute joints. -/
def robotC7 : Robot :=
  ⟨Tree.node (bNode "robot")
    [Tree.node (bJoint "j1" "revolute")
      [Tree.node (bJoint "j2" "revolute")
        [Tree.node (bLink "shin") [Tree.node (bMesh "m" 5) []]]]],
    [("shin", [0, 0, 0])], [("j1", [0]), ("j2", [0, 0])]⟩


/-- Robot with two orphan meshes directly under the root: a visual one and a
collision-named one. -/
def robotC9 : Robot :=
  ⟨Tree.node (bNode "robot")
    [Tree.node (bMesh "debris" 7) [],
      Tree.node (bMesh "junk_collision" 8) []],
    [], []⟩


/-! ### Registration writes of phases 1 and 2 (for the frame analysis) -/

/-- The `userData` entries written by link registration. -/
def linkRegView (d : NodeData) : Bool × Option String :=
  (d.userData.isURDFLink, d.userData.linkName)


/-- The `userData` entries written by joint registration. -/
def jointRegView (d : NodeData) :
    Bool × Option String × Option Vec3Q × Option LimitQ :=
  (d.userData.isURDFJoint, d.userData.jointType, d.userData.axis,
    d.userData.limit)


/-- The class-level fields `extractJointData` reads. -/
def jdClassView (d : NodeData) :
    Option String × Option AxisRaw × Option RawLimit :=
  (d.jointTypeC, d.axisC, d.limitC)


/-- The mesh-metadata `userData` entries written by phase 3. -/
def meshMetaView (d : NodeData) :
    Option String × Option Bool × Option Bool × Option Bool ×
      Option (List String) :=
  (d.userData.parentLinkName, d.userData.isCollisionMesh,
    d.userData.isVisualMesh, d.userData.isInKinematicChain,
    d.userData.affectingJoints)


/-- Robot with a link carrying inertial data. -/
def robotC10 : Robot :=
  ⟨Tree.node (bNode "robot")
    [Tree.node ({ bLink "base" with
      inertialC := some ⟨some 1, none, none⟩ }) []],
    [("base", [0])], []⟩


/-- Robot exercising all three write classes for the C10 witness. -/
def robotC10W : Robot :=
  ⟨Tree.node (bNode "robot")
    [Tree.node (bLink "base") [],
      Tree.node (bJoint "j" "revolute") [],
      Tree.node (bMesh "m" 4) []],
    [("base", [0])], [("j", [1])]⟩


/-- A sequence of `highlightLinkMeshes` calls (each with its own link name,
highlight material and sub-type), applied to the shared highlight state. -/
def applyOps (idx : RobotIndex) (ops : List (String × Nat × String))
    (st : HLState) : HLState :=
  ops.foldl (fun st op => highlightLinkMeshes idx op.1 op.2.1 op.2.2 st) st


/-- Invariant of the highlight state for one mesh `m` with pre-highlight
material `M`: the mesh still exists; the map keys are distinct; and either
`m` is not highlighted and still carries `M`, or its map entry holds `M`. -/
structure HLInv (m : Path) (M : Nat) (st : HLState) : Prop where
  node : (getPath m st.tree).isSome = true
  keys : keysNodup st.highlighted
  good : (alGet st.highlighted m = none ∧
      (getPath m st.tree).map NodeData.material = some M) ∨
    alGet st.highlighted m = some M

noncomputable section


/-- A real 3-vector. -/
structure Vec3R where
  x : ℝ
  y : ℝ
  z : ℝ


/-- The zero vector. -/
def vzero : Vec3R := ⟨0, 0, 0⟩


/-- Component-wise sum. -/
def vadd (a b : Vec3R) : Vec3R := ⟨a.x + b.x, a.y + b.y, a.z + b.z⟩


/-- Component-wise difference (`subVectors`). -/
def vsub (a b : Vec3R) : Vec3R := ⟨a.x - b.x, a.y - b.y, a.z - b.z⟩


/-- Scalar multiple. -/
def vsmul (c : ℝ) (a : Vec3R) : Vec3R := ⟨c * a.x, c * a.y, c * a.z⟩


/-- Dot product. -/
def dotv (a b : Vec3R) : ℝ := a.x * b.x + a.y * b.y + a.z * b.z


/-- Cross product (`crossVectors`). -/
def crossv (a b : Vec3R) : Vec3R :=
  ⟨a.y * b.z - a.z * b.y, a.z * b.x - a.x * b.z, a.x * b.y - a.y * b.x⟩


/-- Squared length. -/
def lengthSq (a : Vec3R) : ℝ := dotv a a


/-- Length. -/
def lengthv (a : Vec3R) : ℝ := Real.sqrt (lengthSq a)


/-- `Vector3.normalize()`: divide by `length() || 1` (a zero vector stays
zero). -/
def normalizeJS (a : Vec3R) : Vec3R :=
  let l := lengthv a
  let s := if l = 0 then 1 else l
  ⟨a.x / s, a.y / s, a.z / s⟩


/-- The part of a `Matrix4` the drag math consults: the upper-left 3×3 (row
`i`, column `j` as `mij`) and the translation column. -/
structure Mat4 where
  m11 : ℝ
  m12 : ℝ
  m13 : ℝ
  m21 : ℝ
  m22 : ℝ
  m23 : ℝ
  m31 : ℝ
  m32 : ℝ
  m33 : ℝ
  tx : ℝ
  ty : ℝ
  tz : ℝ


/-- The identity matrix. -/
def idMat : Mat4 := ⟨1, 0, 0, 0, 1, 0, 0, 0, 1, 0, 0, 0⟩


/-- Apply the upper-left 3×3 block. -/
def linearApply (M : Mat4) (v : Vec3R) : Vec3R :=
  ⟨M.m11 * v.x + M.m12 * v.y + M.m13 * v.z,
    M.m21 * v.x + M.m22 * v.y + M.m23 * v.z,
    M.m31 * v.x + M.m32 * v.y + M.m33 * v.z⟩


/-- `Vector3.transformDirection(m)`: apply the rotation block, then
normalize. -/
def transformDirection (v : Vec3R) (M : Mat4) : Vec3R :=
  normalizeJS (linearApply M v)


/-- `Vector3.setFromMatrixPosition(m)`. -/
def matPosition (M : Mat4) : Vec3R := ⟨M.tx, M.ty, M.tz⟩


/-- A plane in constant-offset form. -/
structure PlaneR where
  normal : Vec3R
  constant : ℝ


/-- `Plane.setFromNormalAndCoplanarPoint(n, p)`. -/
def planeFromNormalAndPoint (n p : Vec3R) : PlaneR := ⟨n, -(dotv p n)⟩


/-- `Plane.distanceToPoint(q)`. -/
def planeDistanceToPoint (pl : PlaneR) (q : Vec3R) : ℝ :=
  dotv pl.normal q + pl.constant


/-- `Plane.projectPoint(q)`: `q + (-distanceToPoint(q)) * normal`. -/
def planeProjectPoint (pl : PlaneR) (q : Vec3R) : Vec3R :=
  vadd q (vsmul (-(planeDistanceToPoint pl q)) pl.normal)


/-- `MathUtils.clamp(value, lo, hi) = max(lo, min(hi, value))`. -/
def clampR (v lo hi : ℝ) : ℝ := max lo (min hi v)


/-- `Vector3.angleTo(v)`, including the zero-denominator guard. -/
def angleToJS (a b : Vec3R) : ℝ :=
  let den := Real.sqrt (lengthSq a * lengthSq b)
  if den = 0 then Real.pi / 2
  else Real.arccos (clampR (dotv a b / den) (-1) 1)


/-- `Math.sign`. -/
def jsSign (x : ℝ) : ℝ := if x < 0 then -1 else if 0 < x then 1 else 0


/-- The world-space joint axis used by `getRevoluteDelta`:
`axis.clone().transformDirection(joint.matrixWorld).normalize()`, with the
`(0,0,1)` fallback for an absent axis. -/
def revAxisWorld (axis : Option Vec3R) (M : Mat4) : Vec3R :=
  normalizeJS (transformDirection (axis.getD ⟨0, 0, 1⟩) M)


/-- The projected, pivot-relative vector of one hit point in
`getRevoluteDelta`. -/
def revProj (axis : Option Vec3R) (M : Mat4) (pt : Vec3R) : Vec3R :=
  let axisWorld := revAxisWorld axis M
  let pivotPoint := matPosition M
  let plane := planeFromNormalAndPoint axisWorld pivotPoint
  vsub (planeProjectPoint plane pt) pivotPoint


/-- `getRevoluteDelta(joint, startPt, endPt)`. -/
def getRevoluteDelta (axis : Option Vec3R) (M : Mat4)
    (startPt endPt : Vec3R) : ℝ :=
  let a := revProj axis M startPt
  let b := revProj axis M endPt
  jsSign (dotv (crossv a b) (revAxisWorld axis M)) * angleToJS a b


/-- `getPrismaticDelta(joint, startPt, endPt)`: scalar projection of the
displacement onto the axis transformed by the joint's **parent** world
matrix. -/
def getPrismaticDelta (axis : Option Vec3R) (parentM : Mat4)
    (startPt endPt : Vec3R) : ℝ :=
  dotv (vsub endPt startPt)
    (normalizeJS (transformDirection (axis.getD ⟨0, 0, 1⟩) parentM))


/-- A ray (`origin + d * dir`). -/
structure RayR where
  origin : Vec3R
  dir : Vec3R


/-- `Ray.at(d)`. -/
def rayAt (r : RayR) (d : ℝ) : Vec3R := vadd r.origin (vsmul d r.dir)


/-- A joint limit. -/
structure LimitR where
  lower : ℝ
  upper : ℝ


/-- The fields of the dragged joint consulted by `moveRay`. -/
structure DragJoint where
  jointType : String
  axis : Option Vec3R
  matrixWorld : Mat4
  parentMatrixWorld : Mat4
  angle : Option ℝ
  limit : Option LimitR


/-- `moveRay(toRay)`: the joint's value after one drag step.  Both hit points
are taken at the recorded hit distance along the previous and the new ray; a
zero delta leaves the joint untouched; revolute (and only revolute) values are
clamped to the limit range. -/
def moveRay (j : DragJoint) (lastRay toRay : RayR) (hitDist : ℝ) : Option ℝ :=
  let prevHitPoint := rayAt lastRay hitDist
  let newHitPoint := rayAt toRay hitDist
  let delta :=
    if j.jointType = "revolute" ∨ j.jointType = "continuous" then
      getRevoluteDelta j.axis j.matrixWorld prevHitPoint newHitPoint
    else if j.jointType = "prismatic" then
      getPrismaticDelta j.axis j.parentMatrixWorld prevHitPoint newHitPoint
    else 0
  if delta ≠ 0 then
    let currentAngle := j.angle.getD 0
    let newAngle := currentAngle + delta
    let lim := j.limit.getD ⟨-Real.pi, Real.pi⟩
    if j.jointType = "revolute" then
      some (clampR newAngle lim.lower lim.upper)
    else some newAngle
  else j.angle


/-! ### Drag-math computation lemmas and concrete drag scenarios -/

/-- The `(0,0,1)` axis. -/
def axisZ : Vec3R := ⟨0, 0, 1⟩


/-- The revolute test joint of spec §8.4: axis `(0,0,1)` at the world origin,
limit `[-1.57, 1.57]`, current value `1.4`. -/
def jRev : DragJoint :=
  ⟨"revolute", some axisZ, idMat, idMat, some 1.4, some ⟨-1.57, 1.57⟩⟩


/-- The same joint as a continuous joint. -/
def jCont : DragJoint :=
  ⟨"continuous", some axisZ, idMat, idMat, some 1.4, some ⟨-1.57, 1.57⟩⟩


/-- A ray whose point at distance `0` is `(1,0,0)`. -/
def rayPrev : RayR := ⟨⟨1, 0, 0⟩, ⟨0, 0, 1⟩⟩


/-- A ray whose point at distance `0` is `(0,1,0)`. -/
def rayNew : RayR := ⟨⟨0, 1, 0⟩, ⟨0, 0, 1⟩⟩


/-- The prismatic test joint: axis `(0,0,1)`, parent at the world identity,
current value `0.1`. -/
def jPris : DragJoint :=
  ⟨"prismatic", some axisZ, idMat, idMat, some 0.1, some ⟨-0.5, 0.5⟩⟩


/-- The revolute joint of the zero-projection witness scenario. -/
def jRevW : DragJoint :=
  ⟨"revolute", some axisZ, idMat, idMat, some 0.5, some ⟨-1.57, 1.57⟩⟩


/-- A ray whose point at distance `0` is the pivot itself. -/
def rayPivot : RayR := ⟨⟨0, 0, 0⟩, ⟨0, 0, 1⟩⟩

end


theorem alGet_append {κ α : Type} [DecidableEq κ]
    (l₁ l₂ : List (κ × α)) (k : κ) :
    alGet (l₁ ++ l₂) k =
      match alGet l₁ k with
      | some v => some v
      | none => alGet l₂ k := by
  induction l₁ with
  | nil => simp [alGet]
  | cons e es ih =>
      by_cases h : e.1 = k
      · simp [alGet, h]
      · simpa [alGet, h] using ih


theorem alGet_replace_self {κ α : Type} [DecidableEq κ]
    (l : List (κ × α)) (k : κ) (v : α) :
    alGet (l.map (fun e => if e.1 = k then (k, v) else e)) k =
      (alGet l k).map (fun _ => v) := by
  induction l with
  | nil => simp [alGet]
  | cons e es ih =>
      by_cases h : e.1 = k
      · simp [alGet, h]
      · simpa [alGet, h] using ih


theorem alGet_replace_ne {κ α : Type} [DecidableEq κ]
    (l : List (κ × α)) (k k' : κ) (v : α) (hne : k' ≠ k) :
    alGet (l.map (fun e => if e.1 = k then (k, v) else e)) k' = alGet l k' := by
  induction l with
  | nil => simp [alGet]
  | cons e es ih =>
      by_cases h : e.1 = k
      · have h' : e.1 ≠ k' := fun hc => hne (hc ▸ h ▸ rfl)
        simp only [List.map_cons, if_pos h]
        rw [show alGet ((k, v) :: List.map (fun e => if e.1 = k then (k, v) else e) es) k'
              = alGet (List.map (fun e => if e.1 = k then (k, v) else e) es) k' from by
            simp [alGet, Ne.symm hne]]
        rw [ih]
        simp [alGet, h']
      · by_cases h' : e.1 = k'
        · simp [alGet, h, h', hne]
        · simp only [List.map_cons, if_neg h]
          rw [show alGet (e :: List.map (fun e => if e.1 = k then (k, v) else e) es) k'
                = alGet (List.map (fun e => if e.1 = k then (k, v) else e) es) k' from by
              simp [alGet, h']]
          rw [ih]
          simp [alGet, h']


theorem alGet_alSet_self {κ α : Type} [DecidableEq κ]
    (l : List (κ × α)) (k : κ) (v : α) : alGet (alSet l k v) k = some v := by
  unfold alSet
  by_cases h2 : (alGet l k).isSome
  · rw [if_pos h2, alGet_replace_self]
    rcases Option.isSome_iff_exists.mp h2 with ⟨w, hw⟩
    simp [hw]
  · rw [if_neg h2, alGet_append]
    have : alGet l k = none := Option.not_isSome_iff_eq_none.mp h2
    simp [this, alGet]


theorem alGet_alSet_ne {κ α : Type} [DecidableEq κ]
    (l : List (κ × α)) (k k' : κ) (v : α) (hne : k' ≠ k) :
    alGet (alSet l k v) k' = alGet l k' := by
  unfold alSet
  by_cases h2 : (alGet l k).isSome
  · rw [if_pos h2, alGet_replace_ne _ _ _ _ hne]
  · rw [if_neg h2, alGet_append]
    cases h : alGet l k' with
    | some w => rfl
    | none => simp [alGet, Ne.symm hne]


theorem mem_setAdd {α : Type} [DecidableEq α] (s : List α) (a b : α) :
    b ∈ setAdd s a ↔ b ∈ s ∨ b = a := by
  unfold setAdd
  by_cases h : a ∈ s
  · simp only [if_pos h]
    constructor
    · exact Or.inl
    · rintro (hb | rfl)
      · exact hb
      · exact h
  · simp [if_neg h]


theorem getElem?_modIdx_self {α : Type} (f : α → α) (l : List α) (i : Nat) :
    (modIdx i f l)[i]? = (l[i]?).map f := by
  induction l generalizing i with
  | nil => simp [modIdx]
  | cons a as ih =>
      cases i with
      | zero => simp [modIdx]
      | succ n => simpa [modIdx] using ih n


theorem getElem?_modIdx_ne {α : Type} (f : α → α) (l : List α) (i j : Nat)
    (h : j ≠ i) : (modIdx i f l)[j]? = l[j]? := by
  induction l generalizing i j with
  | nil => simp [modIdx]
  | cons a as ih =>
      cases i with
      | zero =>
          cases j with
          | zero => exact absurd rfl h
          | succ m => simp [modIdx]
      | succ n =>
          cases j with
          | zero => simp [modIdx]
          | succ m => simpa [modIdx] using ih n m (fun hc => h (by omega))


theorem getPath_modPath_self (p : Path) (f : NodeData → NodeData) (t : Tree) :
    getPath p (modPath p f t) = (getPath p t).map f := by
  induction p generalizing t with
  | nil => cases t with | node d cs => simp [getPath, modPath]
  | cons i q ih =>
      cases t with
      | node d cs =>
          simp only [getPath, modPath, getElem?_modIdx_self]
          cases h : cs[i]? with
          | none => simp
          | some c => simpa using ih c


theorem getPath_modPath_ne (p q : Path) (f : NodeData → NodeData) (t : Tree)
    (h : q ≠ p) : getPath q (modPath p f t) = getPath q t := by
  induction p generalizing q t with
  | nil =>
      cases t with
      | node d cs =>
          cases q with
          | nil => exact absurd rfl h
          | cons j q' => simp [getPath, modPath]
  | cons i p' ih =>
      cases t with
      | node d cs =>
          cases q with
          | nil => simp [getPath, modPath]
          | cons j q' =>
              by_cases hij : j = i
              · subst hij
                have hq : q' ≠ p' := fun hc => h (by rw [hc])
                simp only [getPath, modPath, getElem?_modIdx_self]
                cases hcs : cs[j]? with
                | none => simp
                | some c => simpa using ih q' c hq
              · simp [getPath, modPath, getElem?_modIdx_ne _ _ _ _ hij]


theorem length_modIdx {α : Type} (f : α → α) (l : List α) (i : Nat) :
    (modIdx i f l).length = l.length := by
  induction l generalizing i with
  | nil => simp [modIdx]
  | cons a as ih =>
      cases i with
      | zero => simp [modIdx]
      | succ n => simpa [modIdx] using ih n


mutual

theorem paths_modPath (p : Path) (f : NodeData → NodeData) (t : Tree) :
    (modPath p f t).paths = t.paths := by
  cases t with
  | node d cs =>
      cases p with
      | nil => simp [modPath, Tree.paths]
      | cons i p' =>
          simp only [modPath, Tree.paths]
          rw [pathsList_modIdx p' f cs i 0]

theorem pathsList_modIdx (p : Path) (f : NodeData → NodeData)
    (cs : List Tree) (i j : Nat) :
    pathsList (modIdx i (modPath p f) cs) j = pathsList cs j := by
  cases cs with
  | nil => simp [modIdx]
  | cons c cs' =>
      cases i with
      | zero =>
          simp only [modIdx, pathsList]
          rw [paths_modPath p f c]
      | succ n =>
          simp only [modIdx, pathsList]
          rw [pathsList_modIdx p f cs' n (j + 1)]

end


theorem mem_pathsList_shape (cs : List Tree) (i : Nat) (q : Path)
    (hq : q ∈ pathsList cs i) : ∃ j q', q = j :: q' ∧ i ≤ j := by
  induction cs generalizing i with
  | nil => simp [pathsList] at hq
  | cons c cs' ih =>
      simp only [pathsList, List.mem_append, List.mem_map] at hq
      rcases hq with ⟨q', _, rfl⟩ | hq
      · exact ⟨i, q', rfl, le_refl i⟩
      · rcases ih (i + 1) hq with ⟨j, q', rfl, hj⟩
        exact ⟨j, q', rfl, by omega⟩


mutual

theorem paths_nodup (t : Tree) : t.paths.Nodup := by
  cases t with
  | node d cs =>
      simp only [Tree.paths]
      refine List.Nodup.cons ?_ (pathsList_nodup cs 0)
      intro hmem
      rcases mem_pathsList_shape cs 0 [] hmem with ⟨j, q', hq, _⟩
      exact List.noConfusion hq

theorem pathsList_nodup (cs : List Tree) (i : Nat) :
    (pathsList cs i).Nodup := by
  cases cs with
  | nil => simp [pathsList]
  | cons c cs' =>
      simp only [pathsList]
      refine List.Nodup.append ?_ (pathsList_nodup cs' (i + 1)) ?_
      · exact (paths_nodup c).map (fun a b hab => List.tail_eq_of_cons_eq hab)
      · intro q hq1 hq2
        rcases List.mem_map.mp hq1 with ⟨q', _, rfl⟩
        rcases mem_pathsList_shape cs' (i + 1) _ hq2 with ⟨j, q'', hq, hj⟩
        cases hq
        omega

end


theorem mem_pathsList_of_get (cs : List Tree) (i j : Nat) (c : Tree)
    (q : Path) (hc : cs[j]? = some c) (hq : q ∈ c.paths) :
    (i + j) :: q ∈ pathsList cs i := by
  induction cs generalizing i j with
  | nil => simp at hc
  | cons c0 cs' ih =>
      cases j with
      | zero =>
          simp only [List.getElem?_cons_zero, Option.some.injEq] at hc
          subst hc
          simp only [pathsList, List.mem_append, List.mem_map]
          exact Or.inl ⟨q, hq, by simp⟩
      | succ m =>
          simp only [List.getElem?_cons_succ] at hc
          have := ih (i + 1) m hc
          simp only [pathsList, List.mem_append]
          right
          have harith : i + 1 + m = i + (m + 1) := by omega
          simpa [harith] using this


theorem mem_paths_of_getPath (q : Path) (t : Tree) (d : NodeData)
    (h : getPath q t = some d) : q ∈ t.paths := by
  induction q generalizing t with
  | nil => cases t with | node d cs => simp [Tree.paths]
  | cons i q' ih =>
      cases t with
      | node d0 cs =>
          simp only [getPath] at h
          cases hc : cs[i]? with
          | none => simp [hc] at h
          | some c =>
              rw [hc] at h
              simp only [Option.some_bind] at h
              have hm := mem_pathsList_of_get cs 0 i c q' hc (ih c h)
              simp only [Tree.paths, List.mem_cons]
              right
              simpa using hm


theorem treeView_modPath {τ : Type} (g : NodeData → τ)
    (f : NodeData → NodeData) (hf : ∀ d, g (f d) = g d) (p : Path) (t : Tree) :
    treeView g (modPath p f t) = treeView g t := by
  funext q
  by_cases h : q = p
  · subst h
    unfold treeView
    rw [getPath_modPath_self]
    cases getPath q t with
    | none => rfl
    | some d => simp [hf]
  · unfold treeView
    rw [getPath_modPath_ne _ _ _ _ h]


theorem foldl_view_eq {σ α τ : Type} (f : σ → α → σ) (v : σ → τ)
    (h : ∀ s a, v (f s a) = v s) :
    ∀ (l : List α) (s : σ), v (List.foldl f s l) = v s := by
  intro l
  induction l with
  | nil => intro s; rfl
  | cons a as ih => intro s; rw [List.foldl_cons, ih, h]


/-! ### Congruence of the ancestor walks under view equality -/

theorem findSome?_congr {α β : Type} (f g : α → Option β) (l : List α)
    (h : ∀ a ∈ l, f a = g a) : l.findSome? f = l.findSome? g := by
  induction l with
  | nil => rfl
  | cons a as ih =>
      rw [List.findSome?_cons, List.findSome?_cons, h a (by simp)]
      cases g a with
      | none => exact ih (fun b hb => h b (by simp [hb]))
      | some v => rfl


theorem filter_congr' {α : Type} (f g : α → Bool) (l : List α)
    (h : ∀ a ∈ l, f a = g a) : l.filter f = l.filter g := by
  induction l with
  | nil => rfl
  | cons a as ih =>
      rw [List.filter_cons, List.filter_cons, h a (by simp)]
      rw [ih (fun b hb => h b (by simp [hb]))]


theorem movableJointAt_of_fields (d d' : NodeData)
    (h : jointWalkFields d = jointWalkFields d') :
    movableJointAt d = movableJointAt d' := by
  unfold movableJointAt
  have h1 : d.isURDFJoint = d'.isURDFJoint := congrArg Prod.fst h
  have h2 : d.jointTypeC = d'.jointTypeC := congrArg Prod.snd h
  rw [h1, h2]


theorem findAffectingJoints_congr (t t' : Tree)
    (h : treeView jointWalkFields t = treeView jointWalkFields t') (p : Path) :
    findAffectingJoints t p = findAffectingJoints t' p := by
  unfold findAffectingJoints
  apply filter_congr'
  intro q _
  have hq := congrFun h q
  unfold treeView at hq
  cases h1 : getPath q t with
  | none =>
      cases h2 : getPath q t' with
      | none => rfl
      | some d' => rw [h1, h2] at hq; simp at hq
  | some d =>
      cases h2 : getPath q t' with
      | none => rw [h1, h2] at hq; simp at hq
      | some d' =>
          rw [h1, h2] at hq
          simp only [Option.map_some'] at hq
          change movableJointAt d = movableJointAt d'
          exact movableJointAt_of_fields d d' (Option.some.inj hq)


theorem linkHit_of_fields (lk : List String) (d d' : NodeData)
    (h : linkWalkFields d = linkWalkFields d') :
    linkHit lk d = linkHit lk d' := by
  unfold linkHit
  have h1 : d.name = d'.name := congrArg Prod.fst h
  have h2 : d.urdfName = d'.urdfName := congrArg (Prod.fst ∘ Prod.snd) h
  have h3 : d.isURDFLink = d'.isURDFLink :=
    congrArg (Prod.fst ∘ Prod.snd ∘ Prod.snd) h
  have h4 : d.userData.isURDFLink = d'.userData.isURDFLink :=
    congrArg (Prod.fst ∘ Prod.snd ∘ Prod.snd ∘ Prod.snd) h
  have h5 : d.userData.linkName = d'.userData.linkName :=
    congrArg (Prod.snd ∘ Prod.snd ∘ Prod.snd ∘ Prod.snd) h
  rw [h1, h2, h3, h4, h5]


theorem findNearestLink_congr (t t' : Tree) (lk : List String)
    (h : treeView linkWalkFields t = treeView linkWalkFields t') (p : Path) :
    findNearestLink t p lk = findNearestLink t' p lk := by
  unfold findNearestLink
  apply findSome?_congr
  intro q _
  have hq := congrFun h q
  unfold treeView at hq
  cases h1 : getPath q t with
  | none =>
      cases h2 : getPath q t' with
      | none => rfl
      | some d' => rw [h1, h2] at hq; simp at hq
  | some d =>
      cases h2 : getPath q t' with
      | none => rw [h1, h2] at hq; simp at hq
      | some d' =>
          rw [h1, h2] at hq
          simp only [Option.map_some'] at hq
          change Option.map (fun n => (q, n)) (linkHit lk d) =
            Option.map (fun n => (q, n)) (linkHit lk d')
          rw [linkHit_of_fields lk d d' (Option.some.inj hq)]


/-! ### What the phases preserve -/

theorem frameView_linkWrite (n : String) (d : NodeData) :
    ({ d with userData :=
      { d.userData with isURDFLink := true, linkName := some n } } :
        NodeData).frameView = d.frameView := rfl


theorem frameView_inertialWrite (ind : InertialData) (d : NodeData) :
    ({ d with userData :=
      { d.userData with
        inertialData := some ind,
        isSensor := if ind.isSensor then true else d.userData.isSensor } } :
        NodeData).frameView = d.frameView := rfl


theorem frameView_jointWrite (jd : JointData) (d : NodeData) :
    ({ d with userData :=
      { d.userData with
        isURDFJoint := true, jointType := some jd.jointType,
        axis := some jd.axis, limit := some jd.limit } } :
        NodeData).frameView = d.frameView := rfl


theorem frameView_meshWrite (info : MeshInfo) (d : NodeData) :
    ({ d with userData := meshUserDataWrite info d.userData } :
        NodeData).frameView = d.frameView := rfl


theorem p3view_meshWrite (info : MeshInfo) (d : NodeData) :
    ({ d with userData := meshUserDataWrite info d.userData } :
        NodeData).p3view = d.p3view := rfl


theorem phase1Step_treeFrame (s : BuildState) (e : String × Path) :
    treeView NodeData.frameView (phase1Step s e).tree =
      treeView NodeData.frameView s.tree := by
  unfold phase1Step
  dsimp only
  split
  · exact treeView_modPath _ _ (frameView_linkWrite e.1) e.2 s.tree
  · split
    · exact treeView_modPath _ _ (frameView_linkWrite e.1) e.2 s.tree
    · rw [show (⟨modPath e.2 _ (modPath e.2 _ s.tree), _⟩ : BuildState).tree =
          modPath e.2 _ (modPath e.2 _ s.tree) from rfl]
      rw [treeView_modPath _ _ (frameView_inertialWrite _) e.2]
      exact treeView_modPath _ _ (frameView_linkWrite e.1) e.2 s.tree


theorem phase2Step_treeFrame (s : BuildState) (e : String × Path) :
    treeView NodeData.frameView (phase2Step s e).tree =
      treeView NodeData.frameView s.tree := by
  unfold phase2Step
  dsimp only
  split
  · rfl
  · exact treeView_modPath _ _ (frameView_jointWrite _) e.2 s.tree


theorem phase3Step_treeFrame (lk : List String) (s : BuildState) (p : Path) :
    treeView NodeData.frameView (phase3Step lk s p).tree =
      treeView NodeData.frameView s.tree := by
  unfold phase3Step
  dsimp only
  split
  · rfl
  · split
    · rfl
    · split
      · rfl
      · exact treeView_modPath _ _ (frameView_meshWrite _) p s.tree


theorem phase3Step_treeP3 (lk : List String) (s : BuildState) (p : Path) :
    treeView NodeData.p3view (phase3Step lk s p).tree =
      treeView NodeData.p3view s.tree := by
  unfold phase3Step
  dsimp only
  split
  · rfl
  · split
    · rfl
    · split
      · rfl
      · exact treeView_modPath _ _ (p3view_meshWrite _) p s.tree


theorem phase1Step_meshIdxView (s : BuildState) (e : String × Path) :
    meshIdxView (phase1Step s e).index = meshIdxView s.index := by
  unfold phase1Step
  dsimp only
  split
  · rfl
  · split
    · rfl
    · rfl


theorem phase2Step_meshIdxView (s : BuildState) (e : String × Path) :
    meshIdxView (phase2Step s e).index = meshIdxView s.index := by
  unfold phase2Step
  dsimp only
  split
  · rfl
  · rfl


theorem phase12_treeFrame (R : Robot) :
    treeView NodeData.frameView (phase12 R).tree =
      treeView NodeData.frameView R.tree := by
  unfold phase12
  rw [foldl_view_eq phase2Step (fun s => treeView NodeData.frameView s.tree)
    phase2Step_treeFrame]
  rw [foldl_view_eq phase1Step (fun s => treeView NodeData.frameView s.tree)
    phase1Step_treeFrame]


theorem phase12_meshIdxView (R : Robot) :
    meshIdxView (phase12 R).index = meshIdxView createEmptyIndex := by
  unfold phase12
  rw [foldl_view_eq phase2Step (fun s => meshIdxView s.index)
    phase2Step_meshIdxView]
  rw [foldl_view_eq phase1Step (fun s => meshIdxView s.index)
    phase1Step_meshIdxView]


theorem buildRobotIndex_treeFrame (R : Robot) (sc sv : Bool) :
    treeView NodeData.frameView (buildRobotIndex R sc sv).tree =
      treeView NodeData.frameView R.tree := by
  unfold buildRobotIndex
  rw [foldl_view_eq (phase3Step R.linkKeys)
    (fun s => treeView NodeData.frameView s.tree) (phase3Step_treeFrame _)]
  exact phase12_treeFrame R


theorem alGet_eq_none_of_not_mem {κ α : Type} [DecidableEq κ]
    (l : List (κ × α)) (k : κ) (hk : k ∉ l.map Prod.fst) : alGet l k = none := by
  induction l with
  | nil => rfl
  | cons e es ih =>
      simp only [List.map_cons, List.mem_cons, not_or] at hk
      rw [alGet, if_neg (fun hc => hk.1 hc.symm)]
      exact ih hk.2


theorem replace_map_id {κ α : Type} [DecidableEq κ]
    (l : List (κ × α)) (k : κ) (v : α) (hk : k ∉ l.map Prod.fst) :
    l.map (fun e => if e.1 = k then (k, v) else e) = l := by
  induction l with
  | nil => rfl
  | cons e es ih =>
      simp only [List.map_cons, List.mem_cons, not_or] at hk
      simp only [List.map_cons]
      rw [if_neg (fun hc => hk.1 hc.symm), ih hk.2]


theorem keys_alSet_of_isSome {κ α : Type} [DecidableEq κ]
    (l : List (κ × α)) (k : κ) (v : α) (h : (alGet l k).isSome) :
    (alSet l k v).map Prod.fst = l.map Prod.fst := by
  unfold alSet
  rw [if_pos h, List.map_map]
  apply List.map_congr_left
  intro e _
  by_cases hc : e.1 = k
  · simp [hc]
  · simp [hc]


theorem alGet_isSome_of_mem {κ α : Type} [DecidableEq κ]
    (l : List (κ × α)) (k : κ) (hk : k ∈ l.map Prod.fst) :
    (alGet l k).isSome := by
  induction l with
  | nil => simp at hk
  | cons e es ih =>
      by_cases hc : e.1 = k
      · simp [alGet, hc]
      · simp only [List.map_cons, List.mem_cons] at hk
        rcases hk with hk | hk
        · exact absurd hk.symm hc
        · simpa [alGet, hc] using ih hk


theorem keysNodup_alSet {κ α : Type} [DecidableEq κ]
    (l : List (κ × α)) (k : κ) (v : α) (h : keysNodup l) :
    keysNodup (alSet l k v) := by
  by_cases h2 : (alGet l k).isSome
  · unfold keysNodup
    rw [keys_alSet_of_isSome l k v h2]
    exact h
  · have hk : k ∉ l.map Prod.fst := fun hmem => h2 (alGet_isSome_of_mem l k hmem)
    unfold keysNodup alSet
    rw [if_neg h2, List.map_append]
    refine List.Nodup.append h (List.nodup_singleton k) ?_
    intro a ha hb
    simp only [List.map_cons, List.map_nil, List.mem_singleton] at hb
    subst hb
    exact hk ha


theorem sumCount_alSet (l : List (String × List Path)) (k : String)
    (v : List Path) (p : Path) (hnd : keysNodup l) :
    sumCount (alSet l k v) p + ((alGet l k).getD []).count p =
      sumCount l p + v.count p := by
  induction l with
  | nil => simp [alSet, alGet, sumCount]
  | cons e es ih =>
      have hnd' : keysNodup es := (List.nodup_cons.mp hnd).2
      by_cases hek : e.1 = k
      · have hkes : k ∉ es.map Prod.fst := by
          have := (List.nodup_cons.mp hnd).1
          rw [hek] at this
          exact this
        have hget : alGet (e :: es) k = some e.2 := by simp [alGet, hek]
        unfold alSet
        rw [hget]
        simp only [Option.isSome_some, if_pos]
        rw [List.map_cons, if_pos hek]
        rw [replace_map_id es k v hkes]
        simp [sumCount, hget]
        omega
      · have hget : alGet (e :: es) k = alGet es k := by simp [alGet, hek]
        by_cases h2 : (alGet es k).isSome
        · unfold alSet
          rw [hget, if_pos h2]
          rw [List.map_cons, if_neg hek]
          have ihs := ih hnd'
          unfold alSet at ihs
          rw [if_pos h2] at ihs
          simp only [sumCount, List.map_cons, List.sum_cons] at ihs ⊢
          omega
        · unfold alSet
          rw [hget, if_neg h2]
          have ihs := ih hnd'
          unfold alSet at ihs
          rw [if_neg h2] at ihs
          simp only [sumCount, List.map_cons, List.sum_cons, List.cons_append]
            at ihs ⊢
          omega


/-! ### Effect of the phase-3 index updaters, component by component -/

theorem alGet_count_le_sumCount (l : List (String × List Path)) (k : String)
    (w : List Path) (p : Path) (h : alGet l k = some w) :
    w.count p ≤ sumCount l p := by
  induction l with
  | nil => simp [alGet] at h
  | cons e es ih =>
      by_cases hc : e.1 = k
      · simp only [alGet, if_pos hc] at h
        cases h
        simp only [sumCount, List.map_cons, List.sum_cons]
        omega
      · simp only [alGet, if_neg hc] at h
        have := ih h
        simp only [sumCount, List.map_cons, List.sum_cons] at this ⊢
        omega


theorem updOrigMat_rest (p : Path) (m : Nat) (idx : RobotIndex) :
    (updOrigMat p m idx).linksVisual = idx.linksVisual ∧
    (updOrigMat p m idx).linksCollision = idx.linksCollision ∧
    (updOrigMat p m idx).kinematicMeshes = idx.kinematicMeshes ∧
    (updOrigMat p m idx).staticMeshes = idx.staticMeshes ∧
    (updOrigMat p m idx).meshToLink = idx.meshToLink ∧
    (updOrigMat p m idx).meshIsCollider = idx.meshIsCollider := by
  unfold updOrigMat
  split
  · exact ⟨rfl, rfl, rfl, rfl, rfl, rfl⟩
  · exact ⟨rfl, rfl, rfl, rfl, rfl, rfl⟩


theorem updReverse_rest (p : Path) (info : MeshInfo) (idx : RobotIndex) :
    (updReverse p info idx).linksVisual = idx.linksVisual ∧
    (updReverse p info idx).linksCollision = idx.linksCollision ∧
    (updReverse p info idx).kinematicMeshes = idx.kinematicMeshes ∧
    (updReverse p info idx).staticMeshes = idx.staticMeshes := by
  unfold updReverse
  dsimp only
  split
  · exact ⟨rfl, rfl, rfl, rfl⟩
  · exact ⟨rfl, rfl, rfl, rfl⟩


theorem updReverse_mic (p : Path) (info : MeshInfo) (idx : RobotIndex) :
    (updReverse p info idx).meshIsCollider =
      alSet idx.meshIsCollider p info.isCollider := by
  unfold updReverse
  dsimp only
  split
  · rfl
  · rfl


theorem updReverse_m2l (p : Path) (info : MeshInfo) (idx : RobotIndex) :
    (updReverse p info idx).meshToLink =
      if info.owner ≠ "" then alSet idx.meshToLink p info.owner
      else idx.meshToLink := by
  unfold updReverse
  dsimp only
  split
  · rfl
  · rfl


theorem updBuckets_rest (p : Path) (info : MeshInfo) (idx : RobotIndex) :
    (updBuckets p info idx).kinematicMeshes = idx.kinematicMeshes ∧
    (updBuckets p info idx).staticMeshes = idx.staticMeshes ∧
    (updBuckets p info idx).meshToLink = idx.meshToLink ∧
    (updBuckets p info idx).meshIsCollider = idx.meshIsCollider ∧
    (updBuckets p info idx).originalMaterials = idx.originalMaterials := by
  unfold updBuckets
  split
  · exact ⟨rfl, rfl, rfl, rfl, rfl⟩
  · split
    · exact ⟨rfl, rfl, rfl, rfl, rfl⟩
    · exact ⟨rfl, rfl, rfl, rfl, rfl⟩


theorem updBuckets_keysNodup (p : Path) (info : MeshInfo) (idx : RobotIndex)
    (hv : keysNodup idx.linksVisual) (hc : keysNodup idx.linksCollision) :
    keysNodup (updBuckets p info idx).linksVisual ∧
    keysNodup (updBuckets p info idx).linksCollision := by
  unfold updBuckets
  split
  · exact ⟨hv, hc⟩
  · split
    · exact ⟨hv, keysNodup_alSet _ _ _ hc⟩
    · exact ⟨keysNodup_alSet _ _ _ hv, hc⟩


theorem updBuckets_count_self (p : Path) (info : MeshInfo) (idx : RobotIndex)
    (hv : keysNodup idx.linksVisual) (hc : keysNodup idx.linksCollision) :
    bucketsCount (updBuckets p info idx) p =
      bucketsCount idx p + (if info.owner = "" then 0 else 1) := by
  unfold updBuckets
  split
  · omega
  · split
    · have hs := sumCount_alSet idx.linksCollision info.owner
        ((alGet idx.linksCollision info.owner).getD [] ++ [p]) p hc
      have hcount : ((alGet idx.linksCollision info.owner).getD [] ++ [p]).count p
          = ((alGet idx.linksCollision info.owner).getD []).count p + 1 := by
        rw [List.count_append]
        simp
      unfold bucketsCount
      dsimp only
      omega
    · have hs := sumCount_alSet idx.linksVisual info.owner
        ((alGet idx.linksVisual info.owner).getD [] ++ [p]) p hv
      have hcount : ((alGet idx.linksVisual info.owner).getD [] ++ [p]).count p
          = ((alGet idx.linksVisual info.owner).getD []).count p + 1 := by
        rw [List.count_append]
        simp
      unfold bucketsCount
      dsimp only
      omega


theorem updBuckets_count_ne (p p' : Path) (info : MeshInfo) (idx : RobotIndex)
    (hv : keysNodup idx.linksVisual) (hc : keysNodup idx.linksCollision)
    (hne : p' ≠ p) :
    bucketsCount (updBuckets p info idx) p' = bucketsCount idx p' := by
  unfold updBuckets
  split
  · rfl
  · split
    · have hs := sumCount_alSet idx.linksCollision info.owner
        ((alGet idx.linksCollision info.owner).getD [] ++ [p]) p' hc
      have hcount : ((alGet idx.linksCollision info.owner).getD [] ++ [p]).count p'
          = ((alGet idx.linksCollision info.owner).getD []).count p' := by
        rw [List.count_append]
        simp [List.count_singleton', hne]
      unfold bucketsCount
      dsimp only
      omega
    · have hs := sumCount_alSet idx.linksVisual info.owner
        ((alGet idx.linksVisual info.owner).getD [] ++ [p]) p' hv
      have hcount : ((alGet idx.linksVisual info.owner).getD [] ++ [p]).count p'
          = ((alGet idx.linksVisual info.owner).getD []).count p' := by
        rw [List.count_append]
        simp [List.count_singleton', hne]
      unfold bucketsCount
      dsimp only
      omega


theorem regAffectingOne_meshIdxView (p : Path) (idx : RobotIndex) (jn : String) :
    meshIdxView (regAffectingOne p idx jn) = meshIdxView idx := by
  unfold regAffectingOne
  dsimp only
  split
  · split
    · rfl
    · rfl
  · split
    · rfl
    · rfl


theorem updAffecting_meshIdxView (p : Path) (info : MeshInfo)
    (idx : RobotIndex) :
    meshIdxView (updAffecting p info idx) = meshIdxView idx := by
  unfold updAffecting
  exact foldl_view_eq (regAffectingOne p) meshIdxView
    (fun s a => regAffectingOne_meshIdxView p s a) info.affNames idx


theorem updKinStatic_kin (p : Path) (info : MeshInfo) (idx : RobotIndex) :
    (updKinStatic p info idx).kinematicMeshes =
      if info.isInK then setAdd idx.kinematicMeshes p
      else idx.kinematicMeshes := by
  unfold updKinStatic
  split
  · rfl
  · split
    · rfl
    · rfl


theorem updKinStatic_stat (p : Path) (info : MeshInfo) (idx : RobotIndex) :
    (updKinStatic p info idx).staticMeshes =
      if info.isInK then idx.staticMeshes
      else if !info.isCollider then setAdd idx.staticMeshes p
      else idx.staticMeshes := by
  unfold updKinStatic
  split
  · rfl
  · split
    · rfl
    · rfl


theorem updKinStatic_rest (p : Path) (info : MeshInfo) (idx : RobotIndex) :
    (updKinStatic p info idx).linksVisual = idx.linksVisual ∧
    (updKinStatic p info idx).linksCollision = idx.linksCollision ∧
    (updKinStatic p info idx).meshToLink = idx.meshToLink ∧
    (updKinStatic p info idx).meshIsCollider = idx.meshIsCollider := by
  unfold updKinStatic
  split
  · exact ⟨rfl, rfl, rfl, rfl⟩
  · split
    · exact ⟨rfl, rfl, rfl, rfl⟩
    · exact ⟨rfl, rfl, rfl, rfl⟩


/-! ### The composite phase-3 index update and step equations -/

theorem meshIdxView_lv {i j : RobotIndex} (h : meshIdxView i = meshIdxView j) :
    i.linksVisual = j.linksVisual := congrArg (fun v => v.1) h


theorem meshIdxView_lc {i j : RobotIndex} (h : meshIdxView i = meshIdxView j) :
    i.linksCollision = j.linksCollision := congrArg (fun v => v.2.1) h


theorem meshIdxView_kin {i j : RobotIndex} (h : meshIdxView i = meshIdxView j) :
    i.kinematicMeshes = j.kinematicMeshes :=
  congrArg (fun v => v.2.2.2.1) h


theorem meshIdxView_stat {i j : RobotIndex} (h : meshIdxView i = meshIdxView j) :
    i.staticMeshes = j.staticMeshes := congrArg (fun v => v.2.2.2.2.1) h


theorem meshIdxView_m2l {i j : RobotIndex} (h : meshIdxView i = meshIdxView j) :
    i.meshToLink = j.meshToLink := congrArg (fun v => v.2.2.2.2.2.1) h


theorem meshIdxView_mic {i j : RobotIndex} (h : meshIdxView i = meshIdxView j) :
    i.meshIsCollider = j.meshIsCollider := congrArg (fun v => v.2.2.2.2.2.2) h


theorem procIdx_kin (p : Path) (info : MeshInfo) (dmat : Nat)
    (idx : RobotIndex) :
    (procIdx p info dmat idx).kinematicMeshes =
      if info.isInK then setAdd idx.kinematicMeshes p
      else idx.kinematicMeshes := by
  unfold procIdx
  rw [updKinStatic_kin,
    meshIdxView_kin (updAffecting_meshIdxView p info _),
    (updBuckets_rest p info _).1, (updReverse_rest p info _).2.2.1,
    (updOrigMat_rest p dmat idx).2.2.1]


theorem procIdx_stat (p : Path) (info : MeshInfo) (dmat : Nat)
    (idx : RobotIndex) :
    (procIdx p info dmat idx).staticMeshes =
      if info.isInK then idx.staticMeshes
      else if !info.isCollider then setAdd idx.staticMeshes p
      else idx.staticMeshes := by
  unfold procIdx
  rw [updKinStatic_stat,
    meshIdxView_stat (updAffecting_meshIdxView p info _),
    (updBuckets_rest p info _).2.1, (updReverse_rest p info _).2.2.2,
    (updOrigMat_rest p dmat idx).2.2.2.1]


theorem procIdx_mic (p : Path) (info : MeshInfo) (dmat : Nat)
    (idx : RobotIndex) :
    (procIdx p info dmat idx).meshIsCollider =
      alSet idx.meshIsCollider p info.isCollider := by
  unfold procIdx
  rw [(updKinStatic_rest p info _).2.2.2,
    meshIdxView_mic (updAffecting_meshIdxView p info _),
    (updBuckets_rest p info _).2.2.2.1, updReverse_mic,
    (updOrigMat_rest p dmat idx).2.2.2.2.2]


theorem procIdx_m2l (p : Path) (info : MeshInfo) (dmat : Nat)
    (idx : RobotIndex) :
    (procIdx p info dmat idx).meshToLink =
      if info.owner ≠ "" then alSet idx.meshToLink p info.owner
      else idx.meshToLink := by
  unfold procIdx
  rw [(updKinStatic_rest p info _).2.2.1,
    meshIdxView_m2l (updAffecting_meshIdxView p info _),
    (updBuckets_rest p info _).2.2.1, updReverse_m2l,
    (updOrigMat_rest p dmat idx).2.2.2.2.1]


theorem procIdx_keysNodup (p : Path) (info : MeshInfo) (dmat : Nat)
    (idx : RobotIndex) (hv : keysNodup idx.linksVisual)
    (hc : keysNodup idx.linksCollision) :
    keysNodup (procIdx p info dmat idx).linksVisual ∧
    keysNodup (procIdx p info dmat idx).linksCollision := by
  unfold procIdx
  rw [(updKinStatic_rest p info _).1, (updKinStatic_rest p info _).2.1,
    meshIdxView_lv (updAffecting_meshIdxView p info _),
    meshIdxView_lc (updAffecting_meshIdxView p info _)]
  apply updBuckets_keysNodup
  · rw [(updReverse_rest p info _).1, (updOrigMat_rest p dmat idx).1]
    exact hv
  · rw [(updReverse_rest p info _).2.1, (updOrigMat_rest p dmat idx).2.1]
    exact hc


theorem bucketsCount_congr {i j : RobotIndex} (hlv : i.linksVisual = j.linksVisual)
    (hlc : i.linksCollision = j.linksCollision) (p : Path) :
    bucketsCount i p = bucketsCount j p := by
  unfold bucketsCount
  rw [hlv, hlc]


theorem procIdx_count_self (p : Path) (info : MeshInfo) (dmat : Nat)
    (idx : RobotIndex) (hv : keysNodup idx.linksVisual)
    (hc : keysNodup idx.linksCollision) :
    bucketsCount (procIdx p info dmat idx) p =
      bucketsCount idx p + (if info.owner = "" then 0 else 1) := by
  unfold procIdx
  rw [bucketsCount_congr (updKinStatic_rest p info _).1
    (updKinStatic_rest p info _).2.1]
  rw [bucketsCount_congr (meshIdxView_lv (updAffecting_meshIdxView p info _))
    (meshIdxView_lc (updAffecting_meshIdxView p info _))]
  have hv2 : keysNodup (updReverse p info (updOrigMat p dmat idx)).linksVisual := by
    rw [(updReverse_rest p info _).1, (updOrigMat_rest p dmat idx).1]
    exact hv
  have hc2 : keysNodup (updReverse p info (updOrigMat p dmat idx)).linksCollision := by
    rw [(updReverse_rest p info _).2.1, (updOrigMat_rest p dmat idx).2.1]
    exact hc
  rw [updBuckets_count_self p info _ hv2 hc2]
  rw [bucketsCount_congr
    ((updReverse_rest p info _).1.trans (updOrigMat_rest p dmat idx).1)
    ((updReverse_rest p info _).2.1.trans (updOrigMat_rest p dmat idx).2.1)]


theorem procIdx_count_ne (p p' : Path) (info : MeshInfo) (dmat : Nat)
    (idx : RobotIndex) (hv : keysNodup idx.linksVisual)
    (hc : keysNodup idx.linksCollision) (hne : p' ≠ p) :
    bucketsCount (procIdx p info dmat idx) p' = bucketsCount idx p' := by
  unfold procIdx
  rw [bucketsCount_congr (updKinStatic_rest p info _).1
    (updKinStatic_rest p info _).2.1]
  rw [bucketsCount_congr (meshIdxView_lv (updAffecting_meshIdxView p info _))
    (meshIdxView_lc (updAffecting_meshIdxView p info _))]
  have hv2 : keysNodup (updReverse p info (updOrigMat p dmat idx)).linksVisual := by
    rw [(updReverse_rest p info _).1, (updOrigMat_rest p dmat idx).1]
    exact hv
  have hc2 : keysNodup (updReverse p info (updOrigMat p dmat idx)).linksCollision := by
    rw [(updReverse_rest p info _).2.1, (updOrigMat_rest p dmat idx).2.1]
    exact hc
  rw [updBuckets_count_ne p p' info _ hv2 hc2 hne]
  rw [bucketsCount_congr
    ((updReverse_rest p info _).1.trans (updOrigMat_rest p dmat idx).1)
    ((updReverse_rest p info _).2.1.trans (updOrigMat_rest p dmat idx).2.1)]


theorem phase3Step_skip_none (lk : List String) (s : BuildState) (a : Path)
    (h : getPath a s.tree = none) : phase3Step lk s a = s := by
  unfold phase3Step
  rw [h]


theorem phase3Step_skip_giz (lk : List String) (s : BuildState) (a : Path)
    (d : NodeData) (h : getPath a s.tree = some d)
    (hg : d.userData.isGizmo = true) : phase3Step lk s a = s := by
  unfold phase3Step
  rw [h]
  simp [hg]


theorem phase3Step_skip_nonmesh (lk : List String) (s : BuildState) (a : Path)
    (d : NodeData) (h : getPath a s.tree = some d)
    (hg : d.userData.isGizmo = false) (hm : d.isMesh = false) :
    phase3Step lk s a = s := by
  unfold phase3Step
  rw [h]
  simp [hg, hm]


theorem phase3Step_process (lk : List String) (s : BuildState) (a : Path)
    (d : NodeData) (h : getPath a s.tree = some d)
    (hg : d.userData.isGizmo = false) (hm : d.isMesh = true) :
    phase3Step lk s a =
      ⟨modPath a
        (fun d0 =>
          { d0 with
            userData := meshUserDataWrite (meshInfo lk s.tree a) d0.userData })
        s.tree,
        procIdx a (meshInfo lk s.tree a) d.material s.index⟩ := by
  unfold phase3Step
  rw [h]
  simp [hg, hm]


theorem treeView_factor {τ : Type} (g : NodeData → NodeData) (f : NodeData → τ)
    (hf : ∀ d, f (g d) = f d) (t t' : Tree)
    (h : treeView g t = treeView g t') : treeView f t = treeView f t' := by
  funext q
  have hq := congrFun h q
  unfold treeView at hq ⊢
  cases h1 : getPath q t with
  | none =>
      cases h2 : getPath q t' with
      | none => rfl
      | some d' => rw [h1, h2] at hq; simp at hq
  | some d =>
      cases h2 : getPath q t' with
      | none => rw [h1, h2] at hq; simp at hq
      | some d' =>
          rw [h1, h2] at hq
          simp only [Option.map_some'] at hq ⊢
          rw [← hf d, ← hf d', Option.some.inj hq]


/-- Skipped traversal entries extend the processed list without changing the
state, provided the entry is not an indexable mesh. -/
theorem p3inv_extend_nonmesh (t2 : Tree) (lk : List String) (s : BuildState)
    (processed : List Path) (a : Path) (hnm : ¬ isIndexedMesh t2 a)
    (hInv : P3Inv t2 lk s processed) : P3Inv t2 lk s (processed ++ [a]) := by
  have hmem : ∀ p : Path, p ∈ processed ++ [a] ↔ (p ∈ processed ∨ p = a) := by
    intro p
    simp
  refine ⟨hInv.tv, ?_, ?_, ?_, ?_, ?_, ?_, hInv.ndv, hInv.ndc, ?_⟩
  · intro p
    rw [hInv.kin p, hmem p]
    constructor
    · rintro ⟨hp, him, hm⟩
      exact ⟨Or.inl hp, him, hm⟩
    · rintro ⟨hp | rfl, him, hm⟩
      · exact ⟨hp, him, hm⟩
      · exact absurd him hnm
  · intro p
    rw [hInv.stat p, hmem p]
    constructor
    · rintro ⟨hp, him, hm, hc⟩
      exact ⟨Or.inl hp, him, hm, hc⟩
    · rintro ⟨hp | rfl, him, hm, hc⟩
      · exact ⟨hp, him, hm, hc⟩
      · exact absurd him hnm
  · intro p
    rw [hInv.coll p, hmem p]
    constructor
    · rintro ⟨hp, him⟩
      exact ⟨Or.inl hp, him⟩
    · rintro ⟨hp | rfl, him⟩
      · exact ⟨hp, him⟩
      · exact absurd him hnm
  · intro p n
    rw [hInv.m2l p n, hmem p]
    constructor
    · rintro ⟨hp, him, ho, hn⟩
      exact ⟨Or.inl hp, him, ho, hn⟩
    · rintro ⟨hp | rfl, him, ho, hn⟩
      · exact ⟨hp, him, ho, hn⟩
      · exact absurd him hnm
  · intro p hp
    refine hInv.bc0 p ?_
    rintro ⟨h1, h2, h3⟩
    exact hp ⟨(hmem p).mpr (Or.inl h1), h2, h3⟩
  · intro p hp
    rcases hp with ⟨h1, h2, h3⟩
    rcases (hmem p).mp h1 with h1 | rfl
    · exact hInv.bc1 p ⟨h1, h2, h3⟩
    · exact absurd h2 hnm
  · intro p hp him
    rcases (hmem p).mp hp with hp | rfl
    · exact hInv.mw p hp him
    · exact absurd him hnm


theorem mem_append_singleton {α : Type} (l : List α) (a p : α) :
    p ∈ l ++ [a] ↔ p ∈ l ∨ p = a := by simp


/-- One phase-3 step preserves the traversal invariant. -/
theorem p3inv_step (t2 : Tree) (lk : List String) (s : BuildState)
    (processed : List Path) (a : Path) (ha : a ∉ processed)
    (hInv : P3Inv t2 lk s processed) :
    P3Inv t2 lk (phase3Step lk s a) (processed ++ [a]) := by
  cases hget : getPath a s.tree with
  | none =>
      have hnm : ¬ isIndexedMesh t2 a := by
        rintro ⟨d2, hd2, _, _⟩
        have hq := congrFun hInv.tv a
        unfold treeView at hq
        rw [hget, hd2] at hq
        simp at hq
      rw [phase3Step_skip_none lk s a hget]
      exact p3inv_extend_nonmesh t2 lk s processed a hnm hInv
  | some d =>
      have hq := congrFun hInv.tv a
      unfold treeView at hq
      rw [hget] at hq
      cases h2 : getPath a t2 with
      | none =>
          rw [h2] at hq
          simp at hq
      | some d2 =>
          rw [h2] at hq
          simp only [Option.map_some'] at hq
          have hp3 : d.p3view = d2.p3view := Option.some.inj hq
          have hmesh_eq : d.isMesh = d2.isMesh := by
            have h := congrArg NodeData.isMesh hp3
            exact h
          have hgiz_eq : d.userData.isGizmo = d2.userData.isGizmo := by
            have h := congrArg (fun x : NodeData => x.userData.isGizmo) hp3
            exact h
          cases hg : d.userData.isGizmo with
          | true =>
              have hnm : ¬ isIndexedMesh t2 a := by
                rintro ⟨d2', hd2', _, hgz⟩
                rw [h2] at hd2'
                cases hd2'
                rw [hg] at hgiz_eq
                rw [← hgiz_eq] at hgz
                simp at hgz
              rw [phase3Step_skip_giz lk s a d hget hg]
              exact p3inv_extend_nonmesh t2 lk s processed a hnm hInv
          | false =>
              cases hm : d.isMesh with
              | false =>
                  have hnm : ¬ isIndexedMesh t2 a := by
                    rintro ⟨d2', hd2', hms, _⟩
                    rw [h2] at hd2'
                    cases hd2'
                    rw [hm] at hmesh_eq
                    rw [← hmesh_eq] at hms
                    simp at hms
                  rw [phase3Step_skip_nonmesh lk s a d hget hg hm]
                  exact p3inv_extend_nonmesh t2 lk s processed a hnm hInv
              | true =>
                  have him : isIndexedMesh t2 a :=
                    ⟨d2, h2, hmesh_eq ▸ hm, hgiz_eq ▸ hg⟩
                  -- congruences between the current tree and the phase-1/2 tree
                  have htvL : treeView linkWalkFields s.tree =
                      treeView linkWalkFields t2 :=
                    treeView_factor NodeData.p3view linkWalkFields
                      (fun d0 => rfl) _ _ hInv.tv
                  have htvJ : treeView jointWalkFields s.tree =
                      treeView jointWalkFields t2 :=
                    treeView_factor NodeData.p3view jointWalkFields
                      (fun d0 => rfl) _ _ hInv.tv
                  have htvN : treeView NodeData.name s.tree =
                      treeView NodeData.name t2 :=
                    treeView_factor NodeData.p3view NodeData.name
                      (fun d0 => rfl) _ _ hInv.tv
                  have haff : findAffectingJoints s.tree a =
                      findAffectingJoints t2 a :=
                    findAffectingJoints_congr _ _ htvJ a
                  have hfnl : findNearestLink s.tree a lk =
                      findNearestLink t2 a lk :=
                    findNearestLink_congr _ _ lk htvL a
                  have hnameAt : ∀ q, nameAt s.tree q = nameAt t2 q := by
                    intro q
                    have hc := congrFun htvN q
                    unfold treeView at hc
                    unfold nameAt
                    rw [hc]
                  have howner : (meshInfo lk s.tree a).owner =
                      ownerName t2 lk a := by
                    unfold meshInfo ownerName
                    dsimp only
                    rw [hfnl]
                  have hkinb : (meshInfo lk s.tree a).isInK =
                      movableB t2 a := by
                    unfold meshInfo movableB
                    dsimp only
                    rw [haff]
                  have haffn : (meshInfo lk s.tree a).affNames =
                      affNamesAt t2 a := by
                    unfold meshInfo affNamesAt
                    dsimp only
                    rw [haff]
                    exact List.map_congr_left (fun q _ => hnameAt q)
                  rw [phase3Step_process lk s a d hget hg hm]
                  set info := meshInfo lk s.tree a with hinfo
                  constructor
                  -- tv
                  case tv =>
                    show treeView NodeData.p3view (modPath a _ s.tree) = _
                    rw [treeView_modPath NodeData.p3view _
                      (p3view_meshWrite info) a s.tree]
                    exact hInv.tv
                  -- kin
                  case kin =>
                    intro p
                    show p ∈ (procIdx a info d.material s.index).kinematicMeshes ↔ _
                    rw [procIdx_kin, mem_append_singleton]
                    by_cases hpa : p = a
                    · subst hpa
                      constructor
                      · intro _
                        refine ⟨Or.inr rfl, him, ?_⟩
                        by_cases hik : info.isInK = true
                        · rw [← hkinb]; exact hik
                        · exfalso
                          rw [if_neg hik] at *
                          rename_i hmem2
                          rcases (hInv.kin p).mp hmem2 with ⟨hp, _, _⟩
                          exact ha hp
                      · rintro ⟨_, _, hmv⟩
                        have hik : info.isInK = true := by rw [hkinb]; exact hmv
                        rw [if_pos hik]
                        rw [mem_setAdd]
                        exact Or.inr rfl
                    · constructor
                      · intro hmem2
                        have hpin : p ∈ s.index.kinematicMeshes := by
                          by_cases hik : info.isInK = true
                          · rw [if_pos hik] at hmem2
                            rcases (mem_setAdd _ _ _).mp hmem2 with h | h
                            · exact h
                            · exact absurd h hpa
                          · rw [if_neg hik] at hmem2
                            exact hmem2
                        rcases (hInv.kin p).mp hpin with ⟨hp, him2, hm2⟩
                        exact ⟨Or.inl hp, him2, hm2⟩
                      · rintro ⟨hp | rfl, him2, hm2⟩
                        · have hpin : p ∈ s.index.kinematicMeshes :=
                            (hInv.kin p).mpr ⟨hp, him2, hm2⟩
                          by_cases hik : info.isInK = true
                          · rw [if_pos hik, mem_setAdd]
                            exact Or.inl hpin
                          · rw [if_neg hik]
                            exact hpin
                        · exact absurd rfl hpa
                  -- stat
                  case stat =>
                    intro p
                    show p ∈ (procIdx a info d.material s.index).staticMeshes ↔ _
                    rw [procIdx_stat, mem_append_singleton]
                    have hmic :
                        alGet (procIdx a info d.material s.index).meshIsCollider p
                          = alGet (alSet s.index.meshIsCollider a info.isCollider) p := by
                      rw [procIdx_mic]
                    rw [hmic]
                    by_cases hpa : p = a
                    · subst hpa
                      rw [alGet_alSet_self]
                      constructor
                      · intro hmem2
                        by_cases hik : info.isInK = true
                        · rw [if_pos hik] at hmem2
                          rcases (hInv.stat p).mp hmem2 with ⟨hp, _, _, _⟩
                          exact absurd hp ha
                        · rw [if_neg hik] at hmem2
                          by_cases hic : info.isCollider = true
                          · rw [hic] at hmem2
                            simp only [Bool.not_true, if_neg] at hmem2
                            rcases (hInv.stat p).mp (by simpa using hmem2) with
                              ⟨hp, _, _, _⟩
                            exact absurd hp ha
                          · have hicf : info.isCollider = false :=
                              Bool.eq_false_iff.mpr hic
                            refine ⟨Or.inr rfl, him, ?_, ?_⟩
                            · rw [← hkinb]
                              exact Bool.eq_false_iff.mpr hik
                            · rw [hicf]
                      · rintro ⟨_, _, hmv, hcf⟩
                        have hik : info.isInK = false := by rw [hkinb]; exact hmv
                        have hicf : info.isCollider = false := by
                          have := Option.some.inj hcf
                          exact this
                        rw [if_neg (by rw [hik]; exact Bool.false_ne_true),
                          hicf]
                        simp only [Bool.not_false, if_pos]
                        rw [mem_setAdd]
                        exact Or.inr rfl
                    · have hmics :
                          alGet (alSet s.index.meshIsCollider a info.isCollider) p
                            = alGet s.index.meshIsCollider p :=
                        alGet_alSet_ne _ _ _ _ hpa
                      rw [hmics]
                      constructor
                      · intro hmem2
                        have hpin : p ∈ s.index.staticMeshes := by
                          by_cases hik : info.isInK = true
                          · rw [if_pos hik] at hmem2
                            exact hmem2
                          · rw [if_neg hik] at hmem2
                            by_cases hic : (!info.isCollider) = true
                            · rw [if_pos hic] at hmem2
                              rcases (mem_setAdd _ _ _).mp hmem2 with h | h
                              · exact h
                              · exact absurd h hpa
                            · rw [if_neg hic] at hmem2
                              exact hmem2
                        rcases (hInv.stat p).mp hpin with ⟨hp, him2, hm2, hc2⟩
                        exact ⟨Or.inl hp, him2, hm2, hc2⟩
                      · rintro ⟨hp | rfl, him2, hm2, hc2⟩
                        · have hpin : p ∈ s.index.staticMeshes :=
                            (hInv.stat p).mpr ⟨hp, him2, hm2, hc2⟩
                          by_cases hik : info.isInK = true
                          · rw [if_pos hik]
                            exact hpin
                          · rw [if_neg hik]
                            by_cases hic : (!info.isCollider) = true
                            · rw [if_pos hic, mem_setAdd]
                              exact Or.inl hpin
                            · rw [if_neg hic]
                              exact hpin
                        · exact absurd rfl hpa
                  -- coll
                  case coll =>
                    intro p
                    show (alGet (procIdx a info d.material s.index).meshIsCollider p).isSome = true ↔ _
                    rw [procIdx_mic, mem_append_singleton]
                    by_cases hpa : p = a
                    · subst hpa
                      rw [alGet_alSet_self]
                      constructor
                      · intro _
                        exact ⟨Or.inr rfl, him⟩
                      · intro _
                        rfl
                    · rw [alGet_alSet_ne _ _ _ _ hpa, hInv.coll p]
                      constructor
                      · rintro ⟨hp, him2⟩
                        exact ⟨Or.inl hp, him2⟩
                      · rintro ⟨hp | rfl, him2⟩
                        · exact ⟨hp, him2⟩
                        · exact absurd rfl hpa
                  -- m2l
                  case m2l =>
                    intro p n
                    show alGet (procIdx a info d.material s.index).meshToLink p = some n ↔ _
                    rw [procIdx_m2l, mem_append_singleton]
                    by_cases hpa : p = a
                    · subst hpa
                      by_cases ho : info.owner ≠ ""
                      · rw [if_pos ho, alGet_alSet_self]
                        constructor
                        · intro hsome
                          have hn := Option.some.inj hsome
                          subst hn
                          refine ⟨Or.inr rfl, him, ?_, ?_⟩
                          · rw [← howner]
                          · exact ho
                        · rintro ⟨_, _, hon, _⟩
                          rw [← howner] at hon
                          rw [hon]
                      · rw [if_neg ho]
                        constructor
                        · intro hsome
                          rcases (hInv.m2l p n).mp hsome with ⟨hp, _, _, _⟩
                          exact absurd hp ha
                        · rintro ⟨_, _, hon, hne⟩
                          exfalso
                          rw [← howner] at hon
                          rw [← hon] at hne
                          exact ho hne
                    · have hrw :
                          alGet (if info.owner ≠ "" then
                              alSet s.index.meshToLink a info.owner
                            else s.index.meshToLink) p
                            = alGet s.index.meshToLink p := by
                        split
                        · exact alGet_alSet_ne _ _ _ _ hpa
                        · rfl
                      rw [hrw, hInv.m2l p n]
                      constructor
                      · rintro ⟨hp, him2, ho2, hn2⟩
                        exact ⟨Or.inl hp, him2, ho2, hn2⟩
                      · rintro ⟨hp | rfl, him2, ho2, hn2⟩
                        · exact ⟨hp, him2, ho2, hn2⟩
                        · exact absurd rfl hpa
                  -- bc0
                  case bc0 =>
                    intro p hp
                    show bucketsCount (procIdx a info d.material s.index) p = 0
                    by_cases hpa : p = a
                    · subst hpa
                      rw [procIdx_count_self p info d.material s.index
                        hInv.ndv hInv.ndc]
                      have h0 : bucketsCount s.index p = 0 := by
                        apply hInv.bc0
                        rintro ⟨hp2, _, _⟩
                        exact ha hp2
                      rw [h0]
                      have ho : info.owner = "" := by
                        by_contra hon
                        apply hp
                        refine ⟨(mem_append_singleton _ _ _).mpr (Or.inr rfl),
                          him, ?_⟩
                        rw [← howner]
                        exact hon
                      rw [if_pos ho]
                    · rw [procIdx_count_ne a p info d.material s.index
                        hInv.ndv hInv.ndc hpa]
                      apply hInv.bc0
                      rintro ⟨hp2, him2, ho2⟩
                      exact hp ⟨(mem_append_singleton _ _ _).mpr (Or.inl hp2),
                        him2, ho2⟩
                  -- bc1
                  case bc1 =>
                    intro p hp
                    rcases hp with ⟨hp1, him2, ho2⟩
                    show bucketsCount (procIdx a info d.material s.index) p = 1
                    by_cases hpa : p = a
                    · subst hpa
                      rw [procIdx_count_self p info d.material s.index
                        hInv.ndv hInv.ndc]
                      have h0 : bucketsCount s.index p = 0 := by
                        apply hInv.bc0
                        rintro ⟨hp2, _, _⟩
                        exact ha hp2
                      rw [h0]
                      have ho : ¬ info.owner = "" := by
                        rw [howner]
                        exact ho2
                      rw [if_neg ho]
                    · rw [procIdx_count_ne a p info d.material s.index
                        hInv.ndv hInv.ndc hpa]
                      rcases (mem_append_singleton _ _ _).mp hp1 with hp2 | rfl
                      · exact hInv.bc1 p ⟨hp2, him2, ho2⟩
                      · exact absurd rfl hpa
                  -- ndv
                  case ndv =>
                    exact (procIdx_keysNodup a info d.material s.index
                      hInv.ndv hInv.ndc).1
                  -- ndc
                  case ndc =>
                    exact (procIdx_keysNodup a info d.material s.index
                      hInv.ndv hInv.ndc).2
                  -- mw
                  case mw =>
                    intro p hp him2
                    by_cases hpa : p = a
                    · subst hpa
                      refine ⟨info.isCollider, ?_, ?_⟩
                      · show alGet (procIdx p info d.material s.index).meshIsCollider p = _
                        rw [procIdx_mic, alGet_alSet_self]
                      · show ((getPath p (modPath p _ s.tree)).map _) = _
                        rw [getPath_modPath_self, hget]
                        simp only [Option.map_some']
                        have hik := hkinb
                        have hown := howner
                        have haf := haffn
                        refine congrArg some ?_
                        show (some info.owner, some info.isCollider,
                            some (!info.isCollider), some info.isInK,
                            some info.affNames) = _
                        rw [hown, hik, haf]
                    · rcases hInv.mw p
                        (by
                          rcases (mem_append_singleton _ _ _).mp hp with h | rfl
                          · exact h
                          · exact absurd rfl hpa) him2 with ⟨b, hb1, hb2⟩
                      refine ⟨b, ?_, ?_⟩
                      · show alGet (procIdx a info d.material s.index).meshIsCollider p = _
                        rw [procIdx_mic, alGet_alSet_ne _ _ _ _ hpa]
                        exact hb1
                      · show ((getPath p (modPath a _ s.tree)).map _) = _
                        rw [getPath_modPath_ne a p _ s.tree hpa]
                        exact hb2


/-- The invariant holds before any mesh is processed. -/
theorem p3inv_base (R : Robot) :
    P3Inv (phase12 R).tree R.linkKeys (phase12 R) [] := by
  have hmv := phase12_meshIdxView R
  have hkin := meshIdxView_kin hmv
  have hstat := meshIdxView_stat hmv
  have hmic := meshIdxView_mic hmv
  have hm2l := meshIdxView_m2l hmv
  have hlv := meshIdxView_lv hmv
  have hlc := meshIdxView_lc hmv
  refine ⟨rfl, ?_, ?_, ?_, ?_, ?_, ?_, ?_, ?_, ?_⟩
  · intro p
    rw [hkin]
    simp [createEmptyIndex]
  · intro p
    rw [hstat]
    simp [createEmptyIndex]
  · intro p
    rw [hmic]
    simp [createEmptyIndex, alGet]
  · intro p n
    rw [hm2l]
    simp [createEmptyIndex, alGet]
  · intro p _
    unfold bucketsCount sumCount
    rw [hlv, hlc]
    simp [createEmptyIndex]
  · intro p hp
    simp at hp
  · unfold keysNodup
    rw [hlv]
    simp [createEmptyIndex]
  · unfold keysNodup
    rw [hlc]
    simp [createEmptyIndex]
  · intro p hp
    simp at hp


theorem foldl_inv_nodup {σ : Type} (f : σ → Path → σ)
    (P : σ → List Path → Prop)
    (hstep : ∀ s pre a, a ∉ pre → P s pre → P (f s a) (pre ++ [a])) :
    ∀ (l : List Path) (s : σ) (pre : List Path),
      (pre ++ l).Nodup → P s pre → P (List.foldl f s l) (pre ++ l) := by
  intro l
  induction l with
  | nil =>
      intro s pre _ hP
      simpa using hP
  | cons a as ih =>
      intro s pre hnd hP
      have hna : a ∉ pre := by
        intro hmem
        have hd := List.disjoint_of_nodup_append hnd
        exact hd hmem (by simp)
      have h1 : P (f s a) (pre ++ [a]) := hstep s pre a hna hP
      have h2 : ((pre ++ [a]) ++ as).Nodup := by
        rw [List.append_assoc]
        simpa using hnd
      have h3 := ih (f s a) (pre ++ [a]) h2 h1
      rw [List.foldl_cons]
      rw [List.append_assoc] at h3
      simpa using h3


/-- The invariant holds of the finished build, with every traversal path
processed. -/
theorem buildRobotIndex_inv (R : Robot) (sc sv : Bool) :
    P3Inv (phase12 R).tree R.linkKeys (buildRobotIndex R sc sv)
      ((phase12 R).tree.paths) := by
  unfold buildRobotIndex
  have h := foldl_inv_nodup (phase3Step R.linkKeys)
    (P3Inv (phase12 R).tree R.linkKeys)
    (fun s pre a ha hP => p3inv_step (phase12 R).tree R.linkKeys s pre a ha hP)
    ((phase12 R).tree.paths) (phase12 R) []
    (by simpa using paths_nodup (phase12 R).tree)
    (p3inv_base R)
  simpa using h


/-! ### Mesh state and movability relative to the input tree -/

theorem isIndexedMesh_congr (t t' : Tree)
    (h : treeView (fun d => (d.isMesh, d.userData.isGizmo)) t =
      treeView (fun d => (d.isMesh, d.userData.isGizmo)) t') (p : Path) :
    isIndexedMesh t p ↔ isIndexedMesh t' p := by
  have hq := congrFun h p
  unfold treeView at hq
  unfold isIndexedMesh
  cases h1 : getPath p t with
  | none =>
      cases h2 : getPath p t' with
      | none => simp
      | some d' => rw [h1, h2] at hq; simp at hq
  | some d =>
      cases h2 : getPath p t' with
      | none => rw [h1, h2] at hq; simp at hq
      | some d' =>
          rw [h1, h2] at hq
          simp only [Option.map_some'] at hq
          have hpair := Option.some.inj hq
          have hm : d.isMesh = d'.isMesh := congrArg Prod.fst hpair
          have hg : d.userData.isGizmo = d'.userData.isGizmo :=
            congrArg Prod.snd hpair
          constructor
          · rintro ⟨d0, hd0, hm0, hg0⟩
            cases hd0
            exact ⟨d', rfl, hm ▸ hm0, hg ▸ hg0⟩
          · rintro ⟨d0, hd0, hm0, hg0⟩
            cases hd0
            exact ⟨d, rfl, hm.symm ▸ hm0, hg.symm ▸ hg0⟩


theorem phase12_isIndexedMesh (R : Robot) (p : Path) :
    isIndexedMesh (phase12 R).tree p ↔ isIndexedMesh R.tree p :=
  isIndexedMesh_congr _ _
    (treeView_factor NodeData.frameView
      (fun d => (d.isMesh, d.userData.isGizmo)) (fun _ => rfl) _ _
      (phase12_treeFrame R)) p


theorem phase12_movableB (R : Robot) (p : Path) :
    movableB (phase12 R).tree p = movableB R.tree p := by
  unfold movableB
  rw [findAffectingJoints_congr _ _
    (treeView_factor NodeData.frameView jointWalkFields (fun _ => rfl) _ _
      (phase12_treeFrame R)) p]


theorem mem_paths_of_isIndexedMesh (t : Tree) (p : Path)
    (h : isIndexedMesh t p) : p ∈ t.paths := by
  rcases h with ⟨d, hd, _, _⟩
  exact mem_paths_of_getPath p t d hd


/-- Final characterisation: kinematic-set membership. -/
theorem build_kin_mem (R : Robot) (sc sv : Bool) (p : Path) :
    p ∈ (buildRobotIndex R sc sv).index.kinematicMeshes ↔
      (isIndexedMesh R.tree p ∧ movableB R.tree p = true) := by
  rw [(buildRobotIndex_inv R sc sv).kin p]
  rw [← phase12_isIndexedMesh R p, ← phase12_movableB R p]
  constructor
  · rintro ⟨_, him, hmv⟩
    exact ⟨him, hmv⟩
  · rintro ⟨him, hmv⟩
    exact ⟨mem_paths_of_isIndexedMesh _ _ him, him, hmv⟩


/-- Final characterisation: static-set membership. -/
theorem build_stat_mem (R : Robot) (sc sv : Bool) (p : Path) :
    p ∈ (buildRobotIndex R sc sv).index.staticMeshes ↔
      (isIndexedMesh R.tree p ∧ movableB R.tree p = false ∧
        alGet (buildRobotIndex R sc sv).index.meshIsCollider p = some false) := by
  rw [(buildRobotIndex_inv R sc sv).stat p]
  rw [← phase12_isIndexedMesh R p, ← phase12_movableB R p]
  constructor
  · rintro ⟨_, him, hmv, hc⟩
    exact ⟨him, hmv, hc⟩
  · rintro ⟨him, hmv, hc⟩
    exact ⟨mem_paths_of_isIndexedMesh _ _ him, him, hmv, hc⟩


/-- Final characterisation: the mesh→collision map is total on indexed
meshes. -/
theorem build_mic_isSome (R : Robot) (sc sv : Bool) (p : Path) :
    (alGet (buildRobotIndex R sc sv).index.meshIsCollider p).isSome = true ↔
      isIndexedMesh R.tree p := by
  rw [(buildRobotIndex_inv R sc sv).coll p]
  rw [← phase12_isIndexedMesh R p]
  constructor
  · rintro ⟨_, him⟩
    exact him
  · intro him
    exact ⟨mem_paths_of_isIndexedMesh _ _ him, him⟩


/-- Final characterisation: the mesh→link map records exactly the resolvable
owners. -/
theorem build_m2l (R : Robot) (sc sv : Bool) (p : Path) (n : String) :
    alGet (buildRobotIndex R sc sv).index.meshToLink p = some n ↔
      (isIndexedMesh R.tree p ∧ ownerName (phase12 R).tree R.linkKeys p = n ∧
        n ≠ "") := by
  rw [(buildRobotIndex_inv R sc sv).m2l p n]
  rw [← phase12_isIndexedMesh R p]
  constructor
  · rintro ⟨_, him, ho, hn⟩
    exact ⟨him, ho, hn⟩
  · rintro ⟨him, ho, hn⟩
    exact ⟨mem_paths_of_isIndexedMesh _ _ him, him, ho, hn⟩


/-- Final characterisation: bucket occurrences. -/
theorem build_bucketsCount (R : Robot) (sc sv : Bool) (p : Path)
    (him : isIndexedMesh R.tree p) :
    bucketsCount (buildRobotIndex R sc sv).index p =
      (if ownerName (phase12 R).tree R.linkKeys p = "" then 0 else 1) := by
  have him2 : isIndexedMesh (phase12 R).tree p :=
    (phase12_isIndexedMesh R p).mpr him
  by_cases ho : ownerName (phase12 R).tree R.linkKeys p = ""
  · rw [if_pos ho]
    apply (buildRobotIndex_inv R sc sv).bc0
    rintro ⟨_, _, hon⟩
    exact hon ho
  · rw [if_neg ho]
    exact (buildRobotIndex_inv R sc sv).bc1 p
      ⟨mem_paths_of_isIndexedMesh _ _ him2, him2, ho⟩


/-- Final characterisation: the mesh metadata injected into `userData`. -/
theorem build_mesh_userData (R : Robot) (sc sv : Bool) (p : Path)
    (him : isIndexedMesh R.tree p) :
    ∃ b, alGet (buildRobotIndex R sc sv).index.meshIsCollider p = some b ∧
      (getPath p (buildRobotIndex R sc sv).tree).map (fun d =>
          (d.userData.parentLinkName, d.userData.isCollisionMesh,
            d.userData.isVisualMesh, d.userData.isInKinematicChain,
            d.userData.affectingJoints)) =
        some (some (ownerName (phase12 R).tree R.linkKeys p), some b, some (!b),
          some (movableB R.tree p),
          some (affNamesAt (phase12 R).tree p)) := by
  have him2 : isIndexedMesh (phase12 R).tree p :=
    (phase12_isIndexedMesh R p).mpr him
  rcases (buildRobotIndex_inv R sc sv).mw p
    (mem_paths_of_isIndexedMesh _ _ him2) him2 with ⟨b, hb1, hb2⟩
  refine ⟨b, hb1, ?_⟩
  rw [hb2, phase12_movableB R p]


/-! ### Freeze and final claim-facing lemmas -/

theorem getPath_foldl_modPath_not_mem (l : List Path) (p : Path)
    (f : NodeData → NodeData) (t : Tree) (hp : p ∉ l) :
    getPath p (l.foldl (fun t q => modPath q f t) t) = getPath p t := by
  induction l generalizing t with
  | nil => rfl
  | cons q qs ih =>
      have hne : p ≠ q := fun hc => hp (hc ▸ List.mem_cons_self q qs)
      rw [List.foldl_cons,
        ih (modPath q f t) (fun hmem => hp (List.mem_cons_of_mem q hmem))]
      exact getPath_modPath_ne q p f t hne


theorem movableB_eq_true_iff (t : Tree) (p : Path) :
    movableB t p = true ↔ findAffectingJoints t p ≠ [] := by
  unfold movableB
  cases h : findAffectingJoints t p with
  | nil => simp
  | cons x xs => simp


theorem movableB_eq_false_iff (t : Tree) (p : Path) :
    movableB t p = false ↔ findAffectingJoints t p = [] := by
  unfold movableB
  cases h : findAffectingJoints t p with
  | nil => simp
  | cons x xs => simp


/-- C1, amended: every indexable mesh is in at most one of the kinematic and
static sets — kinematic exactly when it has a non-fixed joint ancestor, static
exactly when it has none **and** was classified visual (a non-kinematic
collision mesh is in neither set); the mesh→collision map always records it;
it occurs in exactly one visual/collision bucket of exactly one link when its
owner resolves, and in no bucket otherwise. -/
theorem c1_partition_amended (R : Robot) (sc sv : Bool) (p : Path)
    (d : NodeData) (hd : getPath p R.tree = some d) (hm : d.isMesh = true)
    (hg : d.userData.isGizmo = false) :
    ¬(p ∈ (buildRobotIndex R sc sv).index.kinematicMeshes ∧
        p ∈ (buildRobotIndex R sc sv).index.staticMeshes) ∧
    (p ∈ (buildRobotIndex R sc sv).index.kinematicMeshes ↔
      findAffectingJoints R.tree p ≠ []) ∧
    (p ∈ (buildRobotIndex R sc sv).index.staticMeshes ↔
      (findAffectingJoints R.tree p = [] ∧
        alGet (buildRobotIndex R sc sv).index.meshIsCollider p = some false)) ∧
    (alGet (buildRobotIndex R sc sv).index.meshIsCollider p).isSome = true ∧
    bucketsCount (buildRobotIndex R sc sv).index p =
      (if ownerName (phase12 R).tree R.linkKeys p = "" then 0 else 1) := by
  have him : isIndexedMesh R.tree p := ⟨d, hd, hm, hg⟩
  refine ⟨?_, ?_, ?_, ?_, ?_⟩
  · rintro ⟨hk, hs⟩
    rcases (build_kin_mem R sc sv p).mp hk with ⟨_, hmv1⟩
    rcases (build_stat_mem R sc sv p).mp hs with ⟨_, hmv2, _⟩
    rw [hmv1] at hmv2
    exact absurd hmv2 (by decide)
  · rw [build_kin_mem R sc sv p]
    constructor
    · rintro ⟨_, hmv⟩
      exact (movableB_eq_true_iff R.tree p).mp hmv
    · intro hne
      exact ⟨him, (movableB_eq_true_iff R.tree p).mpr hne⟩
  · rw [build_stat_mem R sc sv p]
    constructor
    · rintro ⟨_, hmv, hc⟩
      exact ⟨(movableB_eq_false_iff R.tree p).mp hmv, hc⟩
    · rintro ⟨hnil, hc⟩
      exact ⟨him, (movableB_eq_false_iff R.tree p).mpr hnil, hc⟩
  · exact (build_mic_isSome R sc sv p).mpr him
  · exact build_bucketsCount R sc sv p him


/-- C7, amended statement (the claim as written, which holds): a mesh with at
least one non-fixed joint ancestor is in the kinematic set, never in the
static set, and the freeze pass (which iterates only the static set) leaves
its `matrixAutoUpdate` flag exactly as it was on the input tree. -/
theorem c7_kinematic_never_frozen (R : Robot) (sc sv : Bool) (p : Path)
    (d : NodeData) (hd : getPath p R.tree = some d) (hm : d.isMesh = true)
    (hg : d.userData.isGizmo = false)
    (hj : findAffectingJoints R.tree p ≠ []) :
    p ∉ (buildRobotIndex R sc sv).index.staticMeshes ∧
    p ∈ (buildRobotIndex R sc sv).index.kinematicMeshes ∧
    (getPath p (freezeStaticMatrices (buildRobotIndex R sc sv)).tree).map
        NodeData.matrixAutoUpdate = some d.matrixAutoUpdate := by
  have him : isIndexedMesh R.tree p := ⟨d, hd, hm, hg⟩
  have hmv : movableB R.tree p = true := (movableB_eq_true_iff R.tree p).mpr hj
  have hstat : p ∉ (buildRobotIndex R sc sv).index.staticMeshes := by
    intro hmem
    rcases (build_stat_mem R sc sv p).mp hmem with ⟨_, hmv2, _⟩
    rw [hmv] at hmv2
    exact absurd hmv2 (by decide)
  refine ⟨hstat, (build_kin_mem R sc sv p).mpr ⟨him, hmv⟩, ?_⟩
  unfold freezeStaticMatrices
  rw [getPath_foldl_modPath_not_mem _ p _ _ hstat]
  have hfr := congrFun (buildRobotIndex_treeFrame R sc sv) p
  unfold treeView at hfr
  rw [hd] at hfr
  cases h3 : getPath p (buildRobotIndex R sc sv).tree with
  | none => rw [h3] at hfr; simp at hfr
  | some d3 =>
      rw [h3] at hfr
      simp only [Option.map_some'] at hfr ⊢
      have hfv : d3.frameView = d.frameView := Option.some.inj hfr
      have : d3.matrixAutoUpdate = d.matrixAutoUpdate := by
        have h := congrArg NodeData.matrixAutoUpdate hfv
        exact h
      rw [this]


/-- C9, amended: a mesh whose ancestor walk reaches the root without a
registered link is excluded from every per-link bucket and from the
mesh→link map, yet is still recorded in the mesh→collision map; it is in the
kinematic set exactly when it has a non-fixed joint ancestor, and in the
static set exactly when it has none and was classified visual — so an orphan
non-kinematic collision mesh is in neither set.  The builder is total: it
produces this index without throwing. -/
theorem c9_orphan_amended (R : Robot) (sc sv : Bool) (p : Path)
    (d : NodeData) (hd : getPath p R.tree = some d) (hm : d.isMesh = true)
    (hg : d.userData.isGizmo = false)
    (ho : ownerName (phase12 R).tree R.linkKeys p = "") :
    bucketsCount (buildRobotIndex R sc sv).index p = 0 ∧
    alGet (buildRobotIndex R sc sv).index.meshToLink p = none ∧
    (alGet (buildRobotIndex R sc sv).index.meshIsCollider p).isSome = true ∧
    (p ∈ (buildRobotIndex R sc sv).index.kinematicMeshes ↔
      findAffectingJoints R.tree p ≠ []) ∧
    (p ∈ (buildRobotIndex R sc sv).index.staticMeshes ↔
      (findAffectingJoints R.tree p = [] ∧
        alGet (buildRobotIndex R sc sv).index.meshIsCollider p = some false)) := by
  have him : isIndexedMesh R.tree p := ⟨d, hd, hm, hg⟩
  refine ⟨?_, ?_, (build_mic_isSome R sc sv p).mpr him, ?_, ?_⟩
  · rw [build_bucketsCount R sc sv p him, if_pos ho]
  · cases hn : alGet (buildRobotIndex R sc sv).index.meshToLink p with
    | none => rfl
    | some n =>
        rcases (build_m2l R sc sv p n).mp hn with ⟨_, hon, hne⟩
        rw [ho] at hon
        exact absurd hon.symm hne
  · rw [build_kin_mem R sc sv p]
    constructor
    · rintro ⟨_, hmv⟩
      exact (movableB_eq_true_iff R.tree p).mp hmv
    · intro hne
      exact ⟨him, (movableB_eq_true_iff R.tree p).mpr hne⟩
  · rw [build_stat_mem R sc sv p]
    constructor
    · rintro ⟨_, hmv, hc⟩
      exact ⟨(movableB_eq_false_iff R.tree p).mp hmv, hc⟩
    · rintro ⟨hnil, hc⟩
      exact ⟨him, (movableB_eq_false_iff R.tree p).mpr hnil, hc⟩


/-- C2 counterexample: the mesh under the link named `collision_detector`
carries no explicit collision marker, yet the naming phase classifies it as a
collision mesh — `COLLISION_PATH_REGEX` accepts `collision_detector`, since
`collision` is a whole underscore-delimited segment of that name. -/
theorem c2_counterexample :
    alGet (buildRobotIndex robotC2 false true).index.meshIsCollider [0, 0] =
      some true ∧
    alGet (buildRobotIndex robotC2 false true).index.meshIsCollider [0, 0] ≠
      some false := by decide


/-- C2 amended: the naming phase matches the word `collision`/`collider`/`col`
delimited by the string ends, `_` or `/` — so both `collision_detector` and
`leg_collision` match (their meshes classify as collision), while a name
containing the word only inside a larger token (`protocol_arm`) does not (its
mesh classifies as visual). -/
theorem c2_naming_amended :
    collisionPathTest "collision_detector" = true ∧
    collisionPathTest "leg_collision" = true ∧
    collisionPathTest "protocol_arm" = false ∧
    alGet (buildRobotIndex robotC2 false true).index.meshIsCollider [0, 0] =
      some true ∧
    alGet (buildRobotIndex robotC2 false true).index.meshIsCollider [1, 0, 0] =
      some true ∧
    alGet (buildRobotIndex robotC2 false true).index.meshIsCollider [2, 0] =
      some false := by decide


/-- C5 counterexample: the index builder records the zero axis verbatim — it
is neither replaced by `(0,0,1)` nor normalised to unit length. -/
theorem c5_counterexample :
    (alGet (buildRobotIndex robotC5 false true).index.jointData "j0").map
      JointData.axis = some ⟨0, 0, 0⟩ ∧
    (alGet (buildRobotIndex robotC5 false true).index.jointData "j0").map
      JointData.axis ≠ some ⟨0, 0, 1⟩ ∧
    ¬((alGet (buildRobotIndex robotC5 false true).index.jointData "j0").map
      (fun jd => normSqQ jd.axis) = some 1) := by
  have h1 : (alGet (buildRobotIndex robotC5 false true).index.jointData
      "j0").map JointData.axis = some ⟨0, 0, 0⟩ := by decide
  refine ⟨h1, ?_, ?_⟩
  · rw [h1]
    intro hc
    have h2 := Option.some.inj hc
    have h3 : (0 : ℚ) = 1 := congrArg Vec3Q.z h2
    norm_num at h3
  · cases halg : alGet (buildRobotIndex robotC5 false true).index.jointData
        "j0" with
    | none => rw [halg] at h1; simp at h1
    | some jd =>
        rw [halg] at h1
        simp only [Option.map_some'] at h1 ⊢
        have hax : jd.axis = ⟨0, 0, 0⟩ := Option.some.inj h1
        rw [hax]
        intro hc
        have h2 := Option.some.inj hc
        norm_num [normSqQ] at h2


/-- C5 amended: `extractJointData` copies the raw axis components verbatim
whenever the axis is present in a recognised vector shape (no normalisation,
zero vector included), and substitutes `(0,0,1)` only when the axis is absent
or not a recognised shape. -/
theorem c5_axis_amended (x y z : ℚ) (d : NodeData) :
    (extractJointData { d with axisC := some (AxisRaw.vector3 x y z) }).axis =
      ⟨x, y, z⟩ ∧
    (extractJointData { d with axisC := some (AxisRaw.plainNum x y z) }).axis =
      ⟨x, y, z⟩ ∧
    (extractJointData { d with axisC := none }).axis = ⟨0, 0, 1⟩ ∧
    (extractJointData { d with axisC := some AxisRaw.other }).axis =
      ⟨0, 0, 1⟩ := by
  refine ⟨?_, ?_, ?_, ?_⟩ <;> simp [extractJointData]


/-- C1 counterexample: the indexed collision mesh `box_collision` (no movable
joint ancestor) lands in **neither** the kinematic nor the static set, and the
orphan mesh `stray` appears in **no** per-link bucket — refuting both
"exactly one of {kinematic, static}" and "exactly one bucket of exactly one
link" for every reachable mesh. -/
theorem c1_counterexample :
    [0, 0] ∉ (buildRobotIndex robotC1 false true).index.kinematicMeshes ∧
    [0, 0] ∉ (buildRobotIndex robotC1 false true).index.staticMeshes ∧
    alGet (buildRobotIndex robotC1 false true).index.meshIsCollider [0, 0] =
      some true ∧
    bucketsCount (buildRobotIndex robotC1 false true).index [1] = 0 ∧
    alGet (buildRobotIndex robotC1 false true).index.meshIsCollider [1] =
      some false := by decide


/-- Witness for the amended C1 at the concrete collision mesh of
`robotC1`. -/
theorem c1_partition_amended_witness :
    getPath [0, 0] robotC1.tree = some (bMesh "box_collision" 1) ∧
    (bMesh "box_collision" 1).isMesh = true ∧
    (bMesh "box_collision" 1).userData.isGizmo = false ∧
    (¬([0, 0] ∈ (buildRobotIndex robotC1 false true).index.kinematicMeshes ∧
        [0, 0] ∈ (buildRobotIndex robotC1 false true).index.staticMeshes) ∧
      ([0, 0] ∈ (buildRobotIndex robotC1 false true).index.kinematicMeshes ↔
        findAffectingJoints robotC1.tree [0, 0] ≠ []) ∧
      ([0, 0] ∈ (buildRobotIndex robotC1 false true).index.staticMeshes ↔
        (findAffectingJoints robotC1.tree [0, 0] = [] ∧
          alGet (buildRobotIndex robotC1 false true).index.meshIsCollider
            [0, 0] = some false)) ∧
      (alGet (buildRobotIndex robotC1 false true).index.meshIsCollider
        [0, 0]).isSome = true ∧
      bucketsCount (buildRobotIndex robotC1 false true).index [0, 0] =
        (if ownerName (phase12 robotC1).tree robotC1.linkKeys [0, 0] = ""
          then 0 else 1)) :=
  ⟨rfl, rfl, rfl,
    c1_partition_amended robotC1 false true [0, 0] (bMesh "box_collision" 1)
      rfl rfl rfl⟩


/-- Witness for C7: the mesh under two nested revolute joints of `robotC7` is
kinematic, not static, and keeps `matrixAutoUpdate` through the freeze. -/
theorem c7_kinematic_never_frozen_witness :
    getPath [0, 0, 0, 0] robotC7.tree = some (bMesh "m" 5) ∧
    (bMesh "m" 5).isMesh = true ∧
    (bMesh "m" 5).userData.isGizmo = false ∧
    findAffectingJoints robotC7.tree [0, 0, 0, 0] ≠ [] ∧
    ([0, 0, 0, 0] ∉ (buildRobotIndex robotC7 false true).index.staticMeshes ∧
      [0, 0, 0, 0] ∈ (buildRobotIndex robotC7 false true).index.kinematicMeshes ∧
      (getPath [0, 0, 0, 0]
          (freezeStaticMatrices (buildRobotIndex robotC7 false true)).tree).map
        NodeData.matrixAutoUpdate = some (bMesh "m" 5).matrixAutoUpdate) :=
  ⟨rfl, rfl, rfl, by decide,
    c7_kinematic_never_frozen robotC7 false true [0, 0, 0, 0] (bMesh "m" 5)
      rfl rfl rfl (by decide)⟩


/-- C9 counterexample: the orphan collision mesh `junk_collision` is indexed
(mesh→collision map) and excluded from every bucket, but is in **neither** the
kinematic nor the static set — the claim's "still records it in the
kinematic/static categorization" fails. -/
theorem c9_counterexample :
    alGet (buildRobotIndex robotC9 false true).index.meshToLink [1] = none ∧
    alGet (buildRobotIndex robotC9 false true).index.meshIsCollider [1] =
      some true ∧
    [1] ∉ (buildRobotIndex robotC9 false true).index.kinematicMeshes ∧
    [1] ∉ (buildRobotIndex robotC9 false true).index.staticMeshes ∧
    bucketsCount (buildRobotIndex robotC9 false true).index [1] = 0 := by
  decide


/-- Witness for the amended C9 at the orphan visual mesh of `robotC9`. -/
theorem c9_orphan_amended_witness :
    getPath [0] robotC9.tree = some (bMesh "debris" 7) ∧
    (bMesh "debris" 7).isMesh = true ∧
    (bMesh "debris" 7).userData.isGizmo = false ∧
    ownerName (phase12 robotC9).tree robotC9.linkKeys [0] = "" ∧
    (bucketsCount (buildRobotIndex robotC9 false true).index [0] = 0 ∧
      alGet (buildRobotIndex robotC9 false true).index.meshToLink [0] = none ∧
      (alGet (buildRobotIndex robotC9 false true).index.meshIsCollider
        [0]).isSome = true ∧
      ([0] ∈ (buildRobotIndex robotC9 false true).index.kinematicMeshes ↔
        findAffectingJoints robotC9.tree [0] ≠ []) ∧
      ([0] ∈ (buildRobotIndex robotC9 false true).index.staticMeshes ↔
        (findAffectingJoints robotC9.tree [0] = [] ∧
          alGet (buildRobotIndex robotC9 false true).index.meshIsCollider [0] =
            some false))) :=
  ⟨rfl, rfl, rfl, by decide,
    c9_orphan_amended robotC9 false true [0] (bMesh "debris" 7) rfl rfl rfl
      (by decide)⟩


theorem extractJointData_congr (d d' : NodeData)
    (h : jdClassView d = jdClassView d') :
    extractJointData d = extractJointData d' := by
  have h1 : d.jointTypeC = d'.jointTypeC := congrArg Prod.fst h
  have h2 : d.axisC = d'.axisC := congrArg (Prod.fst ∘ Prod.snd) h
  have h3 : d.limitC = d'.limitC := congrArg (Prod.snd ∘ Prod.snd) h
  unfold extractJointData
  rw [h1, h2, h3]


theorem phase1Step_linkReg_self (s : BuildState) (e : String × Path) :
    (getPath e.2 (phase1Step s e).tree).map linkRegView =
      (getPath e.2 s.tree).map (fun _ => (true, some e.1)) := by
  unfold phase1Step
  dsimp only
  split
  · show (getPath e.2 (modPath e.2 _ s.tree)).map linkRegView = _
    rw [getPath_modPath_self]
    cases getPath e.2 s.tree with
    | none => rfl
    | some d0 => rfl
  · split
    · show (getPath e.2 (modPath e.2 _ s.tree)).map linkRegView = _
      rw [getPath_modPath_self]
      cases getPath e.2 s.tree with
      | none => rfl
      | some d0 => rfl
    · show (getPath e.2 (modPath e.2 _ (modPath e.2 _ s.tree))).map linkRegView = _
      rw [getPath_modPath_self, getPath_modPath_self]
      cases getPath e.2 s.tree with
      | none => rfl
      | some d0 => rfl


theorem phase1Step_linkReg_ne (s : BuildState) (e : String × Path) (q : Path)
    (hq : q ≠ e.2) :
    (getPath q (phase1Step s e).tree).map linkRegView =
      (getPath q s.tree).map linkRegView := by
  unfold phase1Step
  dsimp only
  split
  · rw [getPath_modPath_ne _ _ _ _ hq]
  · split
    · rw [getPath_modPath_ne _ _ _ _ hq]
    · show (getPath q (modPath e.2 _ (modPath e.2 _ s.tree))).map linkRegView = _
      rw [getPath_modPath_ne _ _ _ _ hq, getPath_modPath_ne _ _ _ _ hq]


theorem phase2Step_linkReg (s : BuildState) (e : String × Path) :
    treeView linkRegView (phase2Step s e).tree =
      treeView linkRegView s.tree := by
  unfold phase2Step
  dsimp only
  split
  · rfl
  · show treeView linkRegView (modPath e.2 _ s.tree) =
      treeView linkRegView s.tree
    apply treeView_modPath
    intro d0
    rfl


theorem phase3Step_linkReg (lk : List String) (s : BuildState) (p : Path) :
    treeView linkRegView (phase3Step lk s p).tree =
      treeView linkRegView s.tree := by
  unfold phase3Step
  dsimp only
  split
  · rfl
  · split
    · rfl
    · split
      · rfl
      · show treeView linkRegView (modPath p _ s.tree) =
          treeView linkRegView s.tree
        apply treeView_modPath
        intro d0
        rfl


theorem phase1Step_jointReg (s : BuildState) (e : String × Path) :
    treeView jointRegView (phase1Step s e).tree =
      treeView jointRegView s.tree := by
  unfold phase1Step
  dsimp only
  split
  · show treeView jointRegView (modPath e.2 _ s.tree) =
      treeView jointRegView s.tree
    apply treeView_modPath
    intro d0
    rfl
  · split
    · show treeView jointRegView (modPath e.2 _ s.tree) =
        treeView jointRegView s.tree
      apply treeView_modPath
      intro d0
      rfl
    · rename_i d1 ind
      show treeView jointRegView (modPath e.2 _ (modPath e.2 _ s.tree)) =
        treeView jointRegView s.tree
      have h1 := treeView_modPath jointRegView
        (fun d =>
          { d with
            userData :=
              { d.userData with isURDFLink := true, linkName := some e.1 } })
        (fun d0 => rfl) e.2 s.tree
      have h2 := treeView_modPath jointRegView
        (fun d =>
          { d with
            userData :=
              { d.userData with
                inertialData := some d1,
                isSensor :=
                  if d1.isSensor then true else d.userData.isSensor } })
        (fun d0 => rfl) e.2
        (modPath e.2
          (fun d =>
            { d with
              userData :=
                { d.userData with isURDFLink := true, linkName := some e.1 } })
          s.tree)
      exact h2.trans h1


theorem phase2Step_jointReg_self (s : BuildState) (e : String × Path)
    (d : NodeData) (hd : getPath e.2 s.tree = some d) :
    (getPath e.2 (phase2Step s e).tree).map jointRegView =
      some (true, some (extractJointData d).jointType,
        some (extractJointData d).axis, some (extractJointData d).limit) := by
  unfold phase2Step
  rw [hd]
  dsimp only
  show (getPath e.2 (modPath e.2 _ s.tree)).map jointRegView = _
  rw [getPath_modPath_self, hd]
  rfl


theorem phase2Step_jointReg_ne (s : BuildState) (e : String × Path) (q : Path)
    (hq : q ≠ e.2) :
    (getPath q (phase2Step s e).tree).map jointRegView =
      (getPath q s.tree).map jointRegView := by
  unfold phase2Step
  dsimp only
  split
  · rfl
  · rw [getPath_modPath_ne _ _ _ _ hq]


theorem phase3Step_jointReg (lk : List String) (s : BuildState) (p : Path) :
    treeView jointRegView (phase3Step lk s p).tree =
      treeView jointRegView s.tree := by
  unfold phase3Step
  dsimp only
  split
  · rfl
  · split
    · rfl
    · split
      · rfl
      · show treeView jointRegView (modPath p _ s.tree) =
          treeView jointRegView s.tree
        apply treeView_modPath
        intro d0
        rfl


theorem foldl_linkReg_ne (l : List (String × Path)) (p : Path)
    (hl : ∀ e ∈ l, e.2 ≠ p) (s : BuildState) :
    (getPath p (l.foldl phase1Step s).tree).map linkRegView =
      (getPath p s.tree).map linkRegView := by
  induction l generalizing s with
  | nil => rfl
  | cons e es ih =>
      rw [List.foldl_cons,
        ih (fun e2 he2 => hl e2 (List.mem_cons_of_mem e he2))]
      exact phase1Step_linkReg_ne s e p
        (fun hc => hl e (List.mem_cons_self e es) hc.symm)


theorem foldl_jointReg_ne (l : List (String × Path)) (p : Path)
    (hl : ∀ e ∈ l, e.2 ≠ p) (s : BuildState) :
    (getPath p (l.foldl phase2Step s).tree).map jointRegView =
      (getPath p s.tree).map jointRegView := by
  induction l generalizing s with
  | nil => rfl
  | cons e es ih =>
      rw [List.foldl_cons,
        ih (fun e2 he2 => hl e2 (List.mem_cons_of_mem e he2))]
      exact phase2Step_jointReg_ne s e p
        (fun hc => hl e (List.mem_cons_self e es) hc.symm)


/-- The build sets `isURDFLink`/`linkName` in the `userData` of every
registered link (the last registration wins on a duplicated node). -/
theorem build_link_registered (R : Robot) (sc sv : Bool) (n : String)
    (p : Path) (l1 l2 : List (String × Path))
    (hsplit : R.links = l1 ++ (n, p) :: l2) (hl2 : ∀ e ∈ l2, e.2 ≠ p)
    (d : NodeData) (hd : getPath p R.tree = some d) :
    (getPath p (buildRobotIndex R sc sv).tree).map linkRegView =
      some (true, some n) := by
  have h3 : treeView linkRegView (buildRobotIndex R sc sv).tree =
      treeView linkRegView (phase12 R).tree := by
    unfold buildRobotIndex
    exact foldl_view_eq (phase3Step R.linkKeys)
      (fun s => treeView linkRegView s.tree) (phase3Step_linkReg _) _ _
  have h2 : treeView linkRegView (phase12 R).tree =
      treeView linkRegView
        (R.links.foldl phase1Step ⟨R.tree, createEmptyIndex⟩).tree := by
    unfold phase12
    exact foldl_view_eq phase2Step (fun s => treeView linkRegView s.tree)
      phase2Step_linkReg _ _
  have hq3 := congrFun h3 p
  have hq2 := congrFun h2 p
  unfold treeView at hq3 hq2
  rw [hq3, hq2, hsplit, List.foldl_append, List.foldl_cons]
  rw [foldl_linkReg_ne l2 p hl2
    (phase1Step (l1.foldl phase1Step ⟨R.tree, createEmptyIndex⟩) (n, p))]
  have hself :=
    phase1Step_linkReg_self (l1.foldl phase1Step ⟨R.tree, createEmptyIndex⟩)
      (n, p)
  dsimp only at hself
  rw [hself]
  have hfr : treeView NodeData.frameView
      (l1.foldl phase1Step ⟨R.tree, createEmptyIndex⟩).tree =
      treeView NodeData.frameView R.tree :=
    foldl_view_eq phase1Step (fun s => treeView NodeData.frameView s.tree)
      phase1Step_treeFrame l1 ⟨R.tree, createEmptyIndex⟩
  have hq := congrFun hfr p
  unfold treeView at hq
  rw [hd] at hq
  cases hA : getPath p (l1.foldl phase1Step ⟨R.tree, createEmptyIndex⟩).tree with
  | none => rw [hA] at hq; simp at hq
  | some dA => rfl


/-- The build sets `isURDFJoint`/`jointType`/`axis`/`limit` in the `userData`
of every registered joint, with values extracted from the joint's class-level
fields. -/
theorem build_joint_registered (R : Robot) (sc sv : Bool) (n : String)
    (p : Path) (l1 l2 : List (String × Path))
    (hsplit : R.joints = l1 ++ (n, p) :: l2) (hl2 : ∀ e ∈ l2, e.2 ≠ p)
    (d : NodeData) (hd : getPath p R.tree = some d) :
    (getPath p (buildRobotIndex R sc sv).tree).map jointRegView =
      some (true, some (extractJointData d).jointType,
        some (extractJointData d).axis, some (extractJointData d).limit) := by
  have h3 : treeView jointRegView (buildRobotIndex R sc sv).tree =
      treeView jointRegView (phase12 R).tree := by
    unfold buildRobotIndex
    exact foldl_view_eq (phase3Step R.linkKeys)
      (fun s => treeView jointRegView s.tree) (phase3Step_jointReg _) _ _
  have hq3 := congrFun h3 p
  unfold treeView at hq3
  rw [hq3]
  unfold phase12
  rw [hsplit, List.foldl_append, List.foldl_cons]
  rw [foldl_jointReg_ne l2 p hl2 _]
  -- the node at `p` before our registration has the original class fields
  have hfr : treeView NodeData.frameView
      (l1.foldl phase2Step
        (R.links.foldl phase1Step ⟨R.tree, createEmptyIndex⟩)).tree =
      treeView NodeData.frameView R.tree := by
    rw [foldl_view_eq phase2Step (fun s => treeView NodeData.frameView s.tree)
      phase2Step_treeFrame l1 _]
    exact foldl_view_eq phase1Step
      (fun s => treeView NodeData.frameView s.tree) phase1Step_treeFrame _ _
  have hq := congrFun hfr p
  unfold treeView at hq
  rw [hd] at hq
  cases hA : getPath p (l1.foldl phase2Step
      (R.links.foldl phase1Step ⟨R.tree, createEmptyIndex⟩)).tree with
  | none => rw [hA] at hq; simp at hq
  | some dA =>
      rw [hA] at hq
      simp only [Option.map_some'] at hq
      have hfv : dA.frameView = d.frameView := Option.some.inj hq
      have hjd : extractJointData dA = extractJointData d := by
        apply extractJointData_congr
        have h := congrArg jdClassView hfv
        exact h
      have hself := phase2Step_jointReg_self
        (l1.foldl phase2Step
          (R.links.foldl phase1Step ⟨R.tree, createEmptyIndex⟩)) (n, p) dA
        (by exact hA)
      dsimp only at hself
      rw [hself, hjd]


/-- C10 counterexample: besides the `userData` entries listed by the claim,
the build also writes `inertialData` into the `userData` of a link that
carries inertial data — a field the claim asserts is left unchanged. -/
theorem c10_counterexample :
    (getPath [0] robotC10.tree).map (fun d => d.userData.inertialData) =
      some none ∧
    ¬((getPath [0] (buildRobotIndex robotC10 false true).tree).map
        (fun d => d.userData.inertialData) = some none) := by decide


/-- C10 amended: the build's side effects on the scene graph are exactly the
`userData` writes — `isURDFLink`/`linkName`/`inertialData`/`isSensor` for
links, `isURDFJoint`/`jointType`/`axis`/`limit` for joints, and the five mesh
metadata entries for indexed meshes.  Every other part of every node
(geometry, material, transforms, class flags, and the remaining `userData`
entries) is left unchanged. -/
theorem c10_frame_amended (R : Robot) (sc sv : Bool) :
    treeView NodeData.frameView (buildRobotIndex R sc sv).tree =
      treeView NodeData.frameView R.tree ∧
    (∀ n p l1 l2 d, R.links = l1 ++ (n, p) :: l2 → (∀ e ∈ l2, e.2 ≠ p) →
      getPath p R.tree = some d →
      (getPath p (buildRobotIndex R sc sv).tree).map linkRegView =
        some (true, some n)) ∧
    (∀ n p l1 l2 d, R.joints = l1 ++ (n, p) :: l2 → (∀ e ∈ l2, e.2 ≠ p) →
      getPath p R.tree = some d →
      (getPath p (buildRobotIndex R sc sv).tree).map jointRegView =
        some (true, some (extractJointData d).jointType,
          some (extractJointData d).axis, some (extractJointData d).limit)) ∧
    (∀ p d, getPath p R.tree = some d → d.isMesh = true →
      d.userData.isGizmo = false →
      ∃ b, alGet (buildRobotIndex R sc sv).index.meshIsCollider p = some b ∧
        (getPath p (buildRobotIndex R sc sv).tree).map meshMetaView =
          some (some (ownerName (phase12 R).tree R.linkKeys p), some b,
            some (!b), some (movableB R.tree p),
            some (affNamesAt (phase12 R).tree p))) :=
  ⟨buildRobotIndex_treeFrame R sc sv,
    fun n p l1 l2 d hs hl hd =>
      build_link_registered R sc sv n p l1 l2 hs hl d hd,
    fun n p l1 l2 d hs hl hd =>
      build_joint_registered R sc sv n p l1 l2 hs hl d hd,
    fun p d hd hm hg => build_mesh_userData R sc sv p ⟨d, hd, hm, hg⟩⟩


/-- Witness for the amended C10: the frame equality and each write class at a
concrete robot. -/
theorem c10_frame_amended_witness :
    (robotC10W.links = [] ++ ("base", [0]) :: [] ∧
      (∀ e ∈ ([] : List (String × Path)), e.2 ≠ [0]) ∧
      getPath [0] robotC10W.tree = some (bLink "base")) ∧
    (robotC10W.joints = [] ++ ("j", [1]) :: [] ∧
      getPath [1] robotC10W.tree = some (bJoint "j" "revolute")) ∧
    (getPath [2] robotC10W.tree = some (bMesh "m" 4) ∧
      (bMesh "m" 4).isMesh = true ∧
      (bMesh "m" 4).userData.isGizmo = false) ∧
    treeView NodeData.frameView (buildRobotIndex robotC10W false true).tree =
      treeView NodeData.frameView robotC10W.tree ∧
    (getPath [0] (buildRobotIndex robotC10W false true).tree).map linkRegView =
      some (true, some "base") ∧
    (getPath [1] (buildRobotIndex robotC10W false true).tree).map jointRegView =
      some (true, some (extractJointData (bJoint "j" "revolute")).jointType,
        some (extractJointData (bJoint "j" "revolute")).axis,
        some (extractJointData (bJoint "j" "revolute")).limit) ∧
    (∃ b, alGet (buildRobotIndex robotC10W false true).index.meshIsCollider
          [2] = some b ∧
      (getPath [2] (buildRobotIndex robotC10W false true).tree).map
          meshMetaView =
        some (some (ownerName (phase12 robotC10W).tree robotC10W.linkKeys [2]),
          some b, some (!b), some (movableB robotC10W.tree [2]),
          some (affNamesAt (phase12 robotC10W).tree [2]))) :=
  ⟨⟨rfl, by simp, rfl⟩, ⟨rfl, rfl⟩, ⟨rfl, rfl, rfl⟩,
    (c10_frame_amended robotC10W false true).1,
    (c10_frame_amended robotC10W false true).2.1 "base" [0] [] []
      (bLink "base") rfl (by simp) rfl,
    (c10_frame_amended robotC10W false true).2.2.1 "j" [1] [] []
      (bJoint "j" "revolute") rfl (by simp) rfl,
    (c10_frame_amended robotC10W false true).2.2.2 [2] (bMesh "m" 4) rfl rfl
      rfl⟩


/-! ### Highlight round-trip -/

theorem modPath_isSome (p q : Path) (f : NodeData → NodeData) (t : Tree) :
    (getPath q (modPath p f t)).isSome = (getPath q t).isSome := by
  by_cases h : q = p
  · subst h
    rw [getPath_modPath_self]
    cases getPath q t with
    | none => rfl
    | some d => rfl
  · rw [getPath_modPath_ne _ _ _ _ h]


theorem matView_visWrite (q : Path) (t : Tree) :
    treeView NodeData.material
        (modPath q (fun d0 => { d0 with visible := true }) t) =
      treeView NodeData.material t :=
  treeView_modPath NodeData.material
    (fun d0 => { d0 with visible := true }) (fun d0 => rfl) q t


theorem matAt_visWrite (q : Path) (t : Tree) (m : Path) :
    (getPath m (modPath q (fun d0 => { d0 with visible := true }) t)).map
      NodeData.material = (getPath m t).map NodeData.material :=
  congrFun (matView_visWrite q t) m


theorem isSome_of_matView (m : Path) (t' t'' : Tree)
    (h : (getPath m t'').map NodeData.material =
      (getPath m t').map NodeData.material) :
    (getPath m t'').isSome = (getPath m t').isSome := by
  cases hg : getPath m t'' with
  | none =>
      cases hg2 : getPath m t' with
      | none => rfl
      | some d => rw [hg, hg2] at h; simp at h
  | some d =>
      cases hg2 : getPath m t' with
      | none => rw [hg, hg2] at h; simp at h
      | some d2 => rfl


theorem hlStep_pres (m : Path) (M mat : Nat) (st : HLState) (p : Path)
    (h : HLInv m M st) : HLInv m M (hlStep mat st p) := by
  unfold hlStep
  split
  · exact h
  · rename_i d hd
    split
    · exact h
    · dsimp only
      have hm2 : ∀ hpm : ¬ p = m,
          (getPath m (if p = [] then
              modPath p
                (fun d0 => { d0 with material := mat, visible := true })
                st.tree
            else
              modPath p.dropLast (fun d0 => { d0 with visible := true })
                (modPath p
                  (fun d0 => { d0 with material := mat, visible := true })
                  st.tree))).map NodeData.material =
            (getPath m st.tree).map NodeData.material := by
        intro hpm
        have hne : m ≠ p := fun hc => hpm hc.symm
        split
        · rw [getPath_modPath_ne _ _ _ _ hne]
        · rw [matAt_visWrite, getPath_modPath_ne _ _ _ _ hne]
      have hnode2 : (getPath m (if p = [] then
          modPath p
            (fun d0 => { d0 with material := mat, visible := true })
            st.tree
        else
          modPath p.dropLast (fun d0 => { d0 with visible := true })
            (modPath p
              (fun d0 => { d0 with material := mat, visible := true })
              st.tree))).isSome = true := by
        split
        · rw [modPath_isSome]
          exact h.node
        · rw [modPath_isSome, modPath_isSome]
          exact h.node
      have hkeys2 : keysNodup
          (if (alGet st.highlighted p).isSome then st.highlighted
            else st.highlighted ++ [(p, d.material)]) := by
        split
        · exact h.keys
        · rename_i hns
          have hp : p ∉ st.highlighted.map Prod.fst :=
            fun hmem => hns (alGet_isSome_of_mem _ _ hmem)
          unfold keysNodup
          rw [List.map_append]
          refine List.Nodup.append h.keys (by simp) ?_
          intro a ha hb
          simp only [List.map_cons, List.map_nil, List.mem_singleton] at hb
          subst hb
          exact hp ha
      have hgood2 :
          (alGet (if (alGet st.highlighted p).isSome then st.highlighted
              else st.highlighted ++ [(p, d.material)]) m = none ∧
            (getPath m (if p = [] then
                modPath p
                  (fun d0 => { d0 with material := mat, visible := true })
                  st.tree
              else
                modPath p.dropLast (fun d0 => { d0 with visible := true })
                  (modPath p
                    (fun d0 => { d0 with material := mat, visible := true })
                    st.tree))).map NodeData.material = some M) ∨
          alGet (if (alGet st.highlighted p).isSome then st.highlighted
            else st.highlighted ++ [(p, d.material)]) m = some M := by
        by_cases hpm : p = m
        · subst hpm
          by_cases hs : (alGet st.highlighted p).isSome
          · rw [if_pos hs]
            rcases h.good with ⟨hnone, _⟩ | hM
            · rw [hnone] at hs
              simp at hs
            · exact Or.inr hM
          · rw [if_neg hs]
            rcases h.good with ⟨hnone, hmat⟩ | hM
            · right
              rw [alGet_append, hnone]
              rw [hd] at hmat
              simp only [Option.map_some'] at hmat
              have : d.material = M := Option.some.inj hmat
              simp [alGet, this]
            · rw [hM] at hs
              simp at hs
        · have hmat := hm2 hpm
          have halg :
              alGet (if (alGet st.highlighted p).isSome then st.highlighted
                else st.highlighted ++ [(p, d.material)]) m =
                alGet st.highlighted m := by
            split
            · rfl
            · rw [alGet_append]
              cases hg : alGet st.highlighted m with
              | some v => rfl
              | none =>
                  have hne : ¬ p = m := hpm
                  simp [alGet, hne]
          rcases h.good with ⟨hnone, hmatM⟩ | hM
          · exact Or.inl ⟨halg.trans hnone, hmat.trans hmatM⟩
          · exact Or.inr (halg.trans hM)
      exact ⟨hnode2, hkeys2, hgood2⟩


theorem foldl_pres {σ α : Type} (P : σ → Prop) (f : σ → α → σ)
    (h : ∀ s a, P s → P (f s a)) :
    ∀ (l : List α) (s : σ), P s → P (List.foldl f s l) := by
  intro l
  induction l with
  | nil => intro s hs; exact hs
  | cons a as ih =>
      intro s hs
      rw [List.foldl_cons]
      exact ih (f s a) (h s a hs)


theorem highlightLinkMeshes_pres (m : Path) (M : Nat) (idx : RobotIndex)
    (linkName : String) (mat : Nat) (subType : String) (st : HLState)
    (h : HLInv m M st) :
    HLInv m M (highlightLinkMeshes idx linkName mat subType st) := by
  unfold highlightLinkMeshes
  exact foldl_pres (HLInv m M) (hlStep mat)
    (fun s a hs => hlStep_pres m M mat s a hs) _ st h


theorem applyOps_pres (m : Path) (M : Nat) (idx : RobotIndex)
    (ops : List (String × Nat × String)) (st : HLState) (h : HLInv m M st) :
    HLInv m M (applyOps idx ops st) := by
  unfold applyOps
  exact foldl_pres (HLInv m M) _
    (fun s op hs =>
      highlightLinkMeshes_pres m M idx op.1 op.2.1 op.2.2 s hs) ops st h


theorem revertColliderParents_mat (p : Path) (sc : Bool) (t : Tree) :
    treeView NodeData.material (revertColliderParents p sc t) =
      treeView NodeData.material t := by
  unfold revertColliderParents
  apply foldl_view_eq
  intro t0 q
  split
  · split
    · exact treeView_modPath NodeData.material
        (fun d => { d with visible := sc }) (fun d0 => rfl) q t0
    · rfl
  · rfl


theorem revertVisualParents_mat (p : Path) (sv : Bool) (t : Tree) :
    treeView NodeData.material (revertVisualParents p sv t) =
      treeView NodeData.material t := by
  unfold revertVisualParents
  apply foldl_view_eq
  intro t0 q
  split
  · split
    · exact treeView_modPath NodeData.material
        (fun d => { d with visible := sv }) (fun d0 => rfl) q t0
    · rfl
  · rfl


theorem revertColliderParents_mat_at (p : Path) (sc : Bool) (t : Tree)
    (m : Path) :
    (getPath m (revertColliderParents p sc t)).map NodeData.material =
      (getPath m t).map NodeData.material :=
  congrFun (revertColliderParents_mat p sc t) m


theorem revertVisualParents_mat_at (p : Path) (sv : Bool) (t : Tree)
    (m : Path) :
    (getPath m (revertVisualParents p sv t)).map NodeData.material =
      (getPath m t).map NodeData.material :=
  congrFun (revertVisualParents_mat p sv t) m


theorem revertOne_mat_ne (sv sc : Bool) (t : Tree) (e : Path × Nat) (m : Path)
    (hne : e.1 ≠ m) :
    (getPath m (revertOne sv sc t e)).map NodeData.material =
      (getPath m t).map NodeData.material := by
  have hnm : m ≠ e.1 := fun hc => hne hc.symm
  unfold revertOne
  dsimp only
  split
  · rw [getPath_modPath_ne _ _ _ _ hnm]
  · split
    · rw [revertColliderParents_mat_at, getPath_modPath_ne _ _ _ _ hnm,
        getPath_modPath_ne _ _ _ _ hnm]
    · rw [revertVisualParents_mat_at, getPath_modPath_ne _ _ _ _ hnm,
        getPath_modPath_ne _ _ _ _ hnm]


theorem revertOne_mat_self (sv sc : Bool) (t : Tree) (e : Path × Nat)
    (hs : (getPath e.1 t).isSome = true) :
    (getPath e.1 (revertOne sv sc t e)).map NodeData.material = some e.2 := by
  rcases Option.isSome_iff_exists.mp hs with ⟨d0, hd0⟩
  unfold revertOne
  dsimp only
  split
  · rw [getPath_modPath_self, hd0]
    rfl
  · split
    · rw [revertColliderParents_mat_at, getPath_modPath_self,
        getPath_modPath_self, hd0]
      rfl
    · rw [revertVisualParents_mat_at, getPath_modPath_self,
        getPath_modPath_self, hd0]
      rfl


theorem revertOne_isSome (sv sc : Bool) (t : Tree) (e : Path × Nat)
    (m : Path) :
    (getPath m (revertOne sv sc t e)).isSome = (getPath m t).isSome := by
  unfold revertOne
  dsimp only
  split
  · rw [modPath_isSome]
  · split
    · rw [isSome_of_matView m _ _ (revertColliderParents_mat_at _ _ _ _),
        modPath_isSome, modPath_isSome]
    · rw [isSome_of_matView m _ _ (revertVisualParents_mat_at _ _ _ _),
        modPath_isSome, modPath_isSome]


theorem revert_fold_mat (sv sc : Bool) (m : Path) (M : Nat) :
    ∀ (es : List (Path × Nat)) (t : Tree), keysNodup es →
      (getPath m t).isSome = true →
      ((alGet es m = none ∧
          (getPath m t).map NodeData.material = some M) ∨
        alGet es m = some M) →
      (getPath m (es.foldl (revertOne sv sc) t)).map NodeData.material =
        some M := by
  intro es
  induction es with
  | nil =>
      intro t _ _ hgood
      rcases hgood with ⟨_, hmat⟩ | hM
      · exact hmat
      · simp [alGet] at hM
  | cons e es ih =>
      intro t hnd hsome hgood
      have hnd' : keysNodup es := (List.nodup_cons.mp hnd).2
      rw [List.foldl_cons]
      by_cases he : e.1 = m
      · have hkm : m ∉ es.map Prod.fst := by
          have := (List.nodup_cons.mp hnd).1
          rw [he] at this
          exact this
        have hMe : e.2 = M := by
          rcases hgood with ⟨hnone, _⟩ | hM
          · rw [alGet, if_pos he] at hnone
            simp at hnone
          · rw [alGet, if_pos he] at hM
            exact Option.some.inj hM
        have hsome1 : (getPath e.1 t).isSome = true := by
          rw [he]
          exact hsome
        have hmat1 := revertOne_mat_self sv sc t e hsome1
        rw [he] at hmat1
        apply ih (revertOne sv sc t e) hnd'
        · rw [revertOne_isSome]
          exact hsome
        · left
          constructor
          · exact alGet_eq_none_of_not_mem es m hkm
          · rw [hmat1, hMe]
      · have halg : alGet (e :: es) m = alGet es m := by
          rw [alGet, if_neg he]
        apply ih (revertOne sv sc t e) hnd'
        · rw [revertOne_isSome]
          exact hsome
        · rcases hgood with ⟨hnone, hmat⟩ | hM
          · left
            exact ⟨halg ▸ hnone, (revertOne_mat_ne sv sc t e m he).trans hmat⟩
          · right
            exact halg ▸ hM


/-- C3: starting from an un-highlighted mesh, any sequence of
`highlightLinkMeshes` calls (any links, any materials, any sub-types)
followed by `revertHighlights` restores the mesh's material to exactly its
pre-highlight value, and the mesh's entry leaves the highlight map only
through that restoring drain. -/
theorem c3_highlight_roundtrip (idx : RobotIndex) (t0 : Tree)
    (ops : List (String × Nat × String)) (m : Path) (d : NodeData)
    (showV showC : Bool) (hd : getPath m t0 = some d) :
    (getPath m
        (revertHighlights (applyOps idx ops ⟨t0, []⟩) showV showC).tree).map
      NodeData.material = some d.material ∧
    alGet (revertHighlights (applyOps idx ops ⟨t0, []⟩) showV showC).highlighted
      m = none := by
  have hinv : HLInv m d.material (applyOps idx ops ⟨t0, []⟩) := by
    apply applyOps_pres
    refine ⟨?_, ?_, ?_⟩
    · show (getPath m t0).isSome = true
      rw [hd]
      rfl
    · show keysNodup ([] : List (Path × Nat))
      simp [keysNodup]
    · left
      refine ⟨rfl, ?_⟩
      show (getPath m t0).map NodeData.material = some d.material
      rw [hd]
      rfl
  unfold revertHighlights
  exact ⟨revert_fold_mat showV showC m d.material _ _ hinv.keys hinv.node
    hinv.good, rfl⟩


/-- Witness for C3: highlight the `collision_detector` bucket of `robotC2`
twice with different overlay materials, then revert; the mesh at `[0,0]` gets
its original material `1` back and the map is drained. -/
theorem c3_highlight_roundtrip_witness :
    getPath [0, 0] robotC2.tree = some (bMesh "box" 1) ∧
    ((getPath [0, 0]
        (revertHighlights
          (applyOps (buildRobotIndex robotC2 false true).index
            [("collision_detector", 99, "collision"),
              ("collision_detector", 98, "collision")]
            ⟨robotC2.tree, []⟩) true false).tree).map
      NodeData.material = some (bMesh "box" 1).material ∧
    alGet (revertHighlights
        (applyOps (buildRobotIndex robotC2 false true).index
          [("collision_detector", 99, "collision"),
            ("collision_detector", 98, "collision")]
          ⟨robotC2.tree, []⟩) true false).highlighted [0, 0] = none) :=
  ⟨rfl,
    c3_highlight_roundtrip (buildRobotIndex robotC2 false true).index
      robotC2.tree
      [("collision_detector", 99, "collision"),
        ("collision_detector", 98, "collision")]
      [0, 0] (bMesh "box" 1) true false rfl⟩


theorem linearApply_id (v : Vec3R) : linearApply idMat v = v := by
  cases v
  simp [linearApply, idMat]


theorem normalizeJS_axisZ : normalizeJS axisZ = axisZ := by
  simp [normalizeJS, lengthv, lengthSq, dotv, axisZ]


theorem revAxisWorld_z : revAxisWorld (some axisZ) idMat = axisZ := by
  rw [revAxisWorld, Option.getD_some, transformDirection, linearApply_id,
    normalizeJS_axisZ, normalizeJS_axisZ]


theorem revProj_z (pt : Vec3R) :
    revProj (some axisZ) idMat pt = ⟨pt.x, pt.y, 0⟩ := by
  rw [revProj, revAxisWorld_z]
  simp [matPosition, idMat, planeFromNormalAndPoint, planeProjectPoint,
    planeDistanceToPoint, dotv, vadd, vsmul, vsub, axisZ]


theorem rayAt_zero (r : RayR) : rayAt r 0 = r.origin := by
  cases r with
  | mk o d => cases o; simp [rayAt, vadd, vsmul]


theorem revolute_delta_quarter_turn :
    getRevoluteDelta (some axisZ) idMat ⟨1, 0, 0⟩ ⟨0, 1, 0⟩ = Real.pi / 2 := by
  rw [getRevoluteDelta]
  rw [show revProj (some axisZ) idMat ⟨1, 0, 0⟩ = ⟨1, 0, 0⟩ by
    rw [revProj_z]]
  rw [show revProj (some axisZ) idMat ⟨0, 1, 0⟩ = ⟨0, 1, 0⟩ by
    rw [revProj_z]]
  rw [revAxisWorld_z]
  have hcross : crossv ⟨1, 0, 0⟩ ⟨0, 1, 0⟩ = ⟨0, 0, 1⟩ := by
    simp [crossv]
  rw [hcross]
  have hdot : dotv ⟨0, 0, 1⟩ axisZ = 1 := by simp [dotv, axisZ]
  rw [hdot]
  have hsign : jsSign 1 = 1 := by norm_num [jsSign]
  rw [hsign]
  have hangle : angleToJS ⟨1, 0, 0⟩ ⟨0, 1, 0⟩ = Real.pi / 2 := by
    rw [angleToJS]
    have h1 : lengthSq ⟨1, 0, 0⟩ = 1 := by simp [lengthSq, dotv]
    have h2 : lengthSq ⟨0, 1, 0⟩ = 1 := by simp [lengthSq, dotv]
    rw [h1, h2]
    have hd : dotv ⟨1, 0, 0⟩ ⟨0, 1, 0⟩ = 0 := by simp [dotv]
    rw [hd]
    norm_num [clampR, Real.arccos_zero]
  rw [hangle]
  ring


/-- C4: dragging a revolute/continuous joint computes the per-move delta as
the signed projected angle — for axis `(0,0,1)` at the world origin, previous
projected point `(1,0,0)` and new point `(0,1,0)` give delta `+π/2`; starting
a revolute joint with limit `[-1.57, 1.57]` at value `1.4` saturates to
`1.57`, while the same drag of a continuous joint reaches the unclamped
`1.4 + π/2`. -/
theorem c4_revolute_drag :
    getRevoluteDelta (some axisZ) idMat ⟨1, 0, 0⟩ ⟨0, 1, 0⟩ = Real.pi / 2 ∧
    moveRay jRev rayPrev rayNew 0 = some 1.57 ∧
    moveRay jCont rayPrev rayNew 0 = some (1.4 + Real.pi / 2) := by
  have h1 : rayAt rayPrev 0 = ⟨1, 0, 0⟩ := by rw [rayAt_zero]; rfl
  have h2 : rayAt rayNew 0 = ⟨0, 1, 0⟩ := by rw [rayAt_zero]; rfl
  have hpi : (1.57 : ℝ) ≤ 1.4 + Real.pi / 2 := by nlinarith [Real.pi_gt_three]
  have hne : Real.pi / 2 ≠ 0 := by positivity
  refine ⟨revolute_delta_quarter_turn, ?_, ?_⟩
  · simp [moveRay, jRev, h1, h2, revolute_delta_quarter_turn, hne, clampR]
    rw [min_eq_left hpi]
    norm_num
  · simp [moveRay, jCont, h1, h2, revolute_delta_quarter_turn, hne, clampR]


/-- C6: the prismatic per-move delta is the scalar projection of the hit-point
displacement onto the parent-frame axis: with axis `(0,0,1)`, a previous point
`(0,0,0)` and a new point at height `0.2`, the delta is `+0.2` regardless of
the X/Y displacement, and the drag adds it directly to the running value. -/
theorem c6_prismatic_delta (x y : ℝ) :
    getPrismaticDelta (some axisZ) idMat ⟨0, 0, 0⟩ ⟨x, y, 0.2⟩ = 0.2 ∧
    moveRay jPris ⟨⟨0, 0, 0⟩, vzero⟩ ⟨⟨x, y, 0.2⟩, vzero⟩ 0 = some 0.3 := by
  have hdelta : ∀ a b : ℝ,
      getPrismaticDelta (some axisZ) idMat ⟨a, b, 0⟩ ⟨x, y, 0.2⟩ = 0.2 := by
    intro a b
    rw [getPrismaticDelta, Option.getD_some, transformDirection,
      linearApply_id, normalizeJS_axisZ, normalizeJS_axisZ]
    simp [dotv, vsub, axisZ]
  refine ⟨hdelta 0 0, ?_⟩
  have h1 : rayAt ⟨⟨0, 0, 0⟩, vzero⟩ (0 : ℝ) = ⟨0, 0, 0⟩ := by
    rw [rayAt_zero]
  have h2 : rayAt ⟨⟨x, y, 0.2⟩, vzero⟩ (0 : ℝ) = ⟨x, y, 0.2⟩ := by
    rw [rayAt_zero]
  simp [moveRay, jPris, h1, h2, hdelta 0 0]
  norm_num


/-- C8: if either projected pivot-relative vector is the zero vector (the ray
passes exactly through the pivot), the revolute angle delta is zero and the
drag step leaves the joint value untouched; the guarded real arithmetic never
leaves the function undefined. -/
theorem c8_zero_projection_safe (j : DragJoint) (r1 r2 : RayR) (d : ℝ)
    (hjt : j.jointType = "revolute" ∨ j.jointType = "continuous")
    (hz : revProj j.axis j.matrixWorld (rayAt r1 d) = vzero ∨
          revProj j.axis j.matrixWorld (rayAt r2 d) = vzero) :
    getRevoluteDelta j.axis j.matrixWorld (rayAt r1 d) (rayAt r2 d) = 0 ∧
    moveRay j r1 r2 d = j.angle := by
  have hsign : jsSign 0 = 0 := by norm_num [jsSign]
  have hdelta :
      getRevoluteDelta j.axis j.matrixWorld (rayAt r1 d) (rayAt r2 d) = 0 := by
    simp only [getRevoluteDelta]
    rcases hz with h | h
    · rw [h]
      have hc : crossv vzero (revProj j.axis j.matrixWorld (rayAt r2 d)) =
          vzero := by simp [crossv, vzero]
      rw [hc]
      have hd : dotv vzero (revAxisWorld j.axis j.matrixWorld) = 0 := by
        simp [dotv, vzero]
      rw [hd, hsign, zero_mul]
    · rw [h]
      have hc : crossv (revProj j.axis j.matrixWorld (rayAt r1 d)) vzero =
          vzero := by simp [crossv, vzero]
      rw [hc]
      have hd : dotv vzero (revAxisWorld j.axis j.matrixWorld) = 0 := by
        simp [dotv, vzero]
      rw [hd, hsign, zero_mul]
  refine ⟨hdelta, ?_⟩
  simp only [moveRay, if_pos hjt, hdelta]
  simp


/-- Witness for C8: a drag step whose previous hit point is exactly the pivot
leaves a joint at value `0.5` unchanged. -/
theorem c8_zero_projection_safe_witness :
    (jRevW.jointType = "revolute" ∨ jRevW.jointType = "continuous") ∧
    (revProj jRevW.axis jRevW.matrixWorld (rayAt rayPivot 0) = vzero ∨
      revProj jRevW.axis jRevW.matrixWorld (rayAt rayNew 0) = vzero) ∧
    moveRay jRevW rayPivot rayNew 0 = some 0.5 := by
  have hjt : jRevW.jointType = "revolute" ∨ jRevW.jointType = "continuous" :=
    Or.inl rfl
  have hz : revProj jRevW.axis jRevW.matrixWorld (rayAt rayPivot 0) = vzero ∨
      revProj jRevW.axis jRevW.matrixWorld (rayAt rayNew 0) = vzero := by
    left
    rw [show jRevW.axis = some axisZ from rfl,
      show jRevW.matrixWorld = idMat from rfl, rayAt_zero]
    rw [show rayPivot.origin = ⟨0, 0, 0⟩ from rfl, revProj_z]
    rfl
  exact ⟨hjt, hz, (c8_zero_projection_safe jRevW rayPivot rayNew 0 hjt hz).2⟩

end URDFStudio
